import Mathlib

/-!
Formal model of the Catan draft-evaluation engine found in
src/base_computes of the catana repository (game_state.py,
settle_eval_simple.py, robber_predict.py, init_eval.py, settle_sim.py,
settle_options.py), together with theorems settling the specification
claims against that code.

Modelling conventions, used throughout:

* Python ints are `Int`; Python floats are `ℚ` where the computation is
  exact rational arithmetic, and `ℝ` where `math.pow` / `math.exp`
  enter (scores, softmax probabilities).
* A node key string "Ta_Tb_Tc" (the sorted tile ids joined by
  underscores) is modelled as the sorted id list `[Ta, Tb, Tc] : List Int`;
  an edge key "Ta_Tb" as `[Ta, Tb]`.  Canonical keys are produced by
  str() of ints, which has no leading zeros, so the two representations
  are in bijection on every key the code itself builds.
* A Python dict is an insertion-ordered association list
  `List (key × value)`: assignment `d[k] = v` updates in place when the
  key is present and appends otherwise (`dictSet`); lookup is `dictGet`
  (first match).  A Python set is either a `Finset` or a list used only
  up to membership.
* A Python `raise` is an `Except.error`; f-string error payloads are
  modelled structurally (a constant message, or a dedicated error type
  carrying the interpolated data).
* Out-of-range list indexing, which raises IndexError in Python, is
  modelled by `getD` with an inert default (an ocean tile); the claims
  only exercise states whose tile array has its full 37 entries, where
  the two semantics agree.
-/

deriving instance DecidableEq for Except

namespace Catana

/-- Python dict lookup `d[k]` / `d.get(k)`: first binding of the key. -/
def dictGet {α β : Type} [DecidableEq α] (d : List (α × β)) (k : α) : Option β :=
  (d.find? (fun p => p.1 = k)).map Prod.snd

/-- Python dict membership test `k in d`. -/
def dictMem {α β : Type} [DecidableEq α] (d : List (α × β)) (k : α) : Bool :=
  (dictGet d k).isSome

/-- Python dict assignment `d[k] = v`: update in place when the key is
present (keeping its position), append otherwise. -/
def dictSet {α β : Type} [DecidableEq α] (d : List (α × β)) (k : α) (v : β) :
    List (α × β) :=
  if dictMem d k then d.map (fun p => if p.1 = k then (k, v) else p)
  else d ++ [(k, v)]

/-! ## Board topology (game_state.py lines 22-200) -/

/-- game_state.ROW_SIZES: the seven row widths of the hex grid. -/
def ROW_SIZES : List Int := [4, 5, 6, 7, 6, 5, 4]

/-- game_state.NUM_TILES. -/
def NUM_TILES : Int := 37

/-- Loop of game_state._tile_to_rowcol: scan the rows accumulating
sizes, returning (row, tile_id - cumulative) on the first row whose
cumulative span covers tile_id; ValueError when the scan exhausts the
rows.  Note the guard `tile_id < cumulative + size` alone: a negative
tile_id satisfies it already at row 0. -/
def tile_to_rowcol_go (tile_id : Int) :
    List Int → Nat → Int → Except String (Nat × Int)
  | [], _, _ => .error "ValueError: Invalid tile_id"
  | size :: rest, row, cumulative =>
    if tile_id < cumulative + size then .ok (row, tile_id - cumulative)
    else tile_to_rowcol_go tile_id rest (row + 1) (cumulative + size)

/-- game_state._tile_to_rowcol. -/
def tile_to_rowcol (tile_id : Int) : Except String (Nat × Int) :=
  tile_to_rowcol_go tile_id ROW_SIZES 0 0

/-- game_state._rowcol_to_tile: `sum(ROW_SIZES[:row]) + col`. -/
def rowcol_to_tile (row : Nat) (col : Int) : Int :=
  (ROW_SIZES.take row).sum + col

/-- game_state.get_adjacent_tiles: the set of tile ids sharing a hex
edge with tile_id.  Same row: col plus or minus 1; a wider adjacent row
contributes offsets c and c+1, a narrower one offsets c-1 and c, each
filtered to the row bounds. -/
def get_adjacent_tiles (tile_id : Int) : Except String (List Int) :=
  match tile_to_rowcol tile_id with
  | .error e => .error e
  | .ok (row, col) =>
    let this_size := ROW_SIZES.getD row 0
    let n0 : List Int := []
    let n1 := if col > 0 then n0.insert (rowcol_to_tile row (col - 1)) else n0
    let n2 := if col < this_size - 1 then n1.insert (rowcol_to_tile row (col + 1)) else n1
    let addRow := fun (neighbors : List Int) (adj_row : Int) =>
      if 0 ≤ adj_row ∧ adj_row < (ROW_SIZES.length : Int) then
        let adj_size := ROW_SIZES.getD adj_row.toNat 0
        let offsets := if adj_size > this_size then [col, col + 1] else [col - 1, col]
        ((offsets.filter (fun c => decide (0 ≤ c ∧ c < adj_size))).map
          (rowcol_to_tile adj_row.toNat)).foldl (fun s t => s.insert t) neighbors
      else neighbors
    .ok (addRow (addRow n2 ((row : Int) - 1)) ((row : Int) + 1))

/-- game_state.PORT_TILE_TO_NODES: the fixed map from each of the 9
port ocean tiles to its two access-node keys. -/
def PORT_TILE_TO_NODES : List (Int × (List Int × List Int)) :=
  [ (0, ([0, 1, 5], [0, 4, 5])),
    (2, ([1, 2, 6], [2, 6, 7])),
    (8, ([7, 8, 13], [8, 13, 14])),
    (9, ([4, 9, 10], [9, 10, 16])),
    (21, ([14, 20, 21], [20, 21, 27])),
    (22, ([16, 22, 23], [22, 23, 28])),
    (32, ([26, 27, 32], [26, 31, 32])),
    (33, ([28, 29, 33], [29, 33, 34])),
    (35, ([30, 31, 35], [30, 34, 35])) ]

/-- game_state.VALID_NODES: the pre-computed 54 valid settlement nodes.
Python stores them as a set of strings; the list below is written in
the order `sorted(VALID_NODES)` produces (lexicographic on the string
keys), which is the iteration order rank_all_spots uses. -/
def VALID_NODES : List (List Int) :=
  [ [0, 1, 5],
    [0, 4, 5],
    [10, 11, 17],
    [10, 16, 17],
    [11, 12, 18],
    [11, 17, 18],
    [12, 13, 19],
    [12, 18, 19],
    [13, 14, 20],
    [13, 19, 20],
    [14, 20, 21],
    [15, 16, 22],
    [16, 17, 23],
    [16, 22, 23],
    [17, 18, 24],
    [17, 23, 24],
    [18, 19, 25],
    [18, 24, 25],
    [19, 20, 26],
    [19, 25, 26],
    [1, 2, 6],
    [1, 5, 6],
    [20, 21, 27],
    [20, 26, 27],
    [22, 23, 28],
    [23, 24, 29],
    [23, 28, 29],
    [24, 25, 30],
    [24, 29, 30],
    [25, 26, 31],
    [25, 30, 31],
    [26, 27, 32],
    [26, 31, 32],
    [28, 29, 33],
    [29, 30, 34],
    [29, 33, 34],
    [2, 3, 7],
    [2, 6, 7],
    [30, 31, 35],
    [30, 34, 35],
    [31, 32, 36],
    [31, 35, 36],
    [3, 7, 8],
    [4, 5, 10],
    [4, 9, 10],
    [5, 10, 11],
    [5, 6, 11],
    [6, 11, 12],
    [6, 7, 12],
    [7, 12, 13],
    [7, 8, 13],
    [8, 13, 14],
    [9, 10, 16],
    [9, 15, 16] ]

/-- Sorted insertion, the helper of pysorted. -/
def insertSorted (x : Int) : List Int → List Int
  | [] => [x]
  | y :: ys => if x ≤ y then x :: y :: ys else y :: insertSorted x ys

/-- Python sorted() on small integer key lists.  An insertion sort is
used because it reduces structurally (the claims evaluate these sorts
on concrete keys); it agrees with sorted() on every input. -/
def pysorted : List Int → List Int
  | [] => []
  | x :: xs => insertSorted x (pysorted xs)

/-- game_state.is_valid_node: sort the triple and test membership in
the fixed 54-node set. -/
def is_valid_node (tile_triple : List Int) : Bool :=
  VALID_NODES.contains (pysorted tile_triple)

/-- Claim C6.  The precomputed valid-node set contains exactly 54
distinct node keys, and each of the 18 node keys appearing in the fixed
port-tile-to-access-nodes table is a member of that set. -/
theorem valid_nodes_card_and_ports :
    VALID_NODES.length = 54 ∧ VALID_NODES.Nodup ∧
      (PORT_TILE_TO_NODES.all
        (fun e => VALID_NODES.contains e.2.1 && VALID_NODES.contains e.2.2)) = true := by
  refine ⟨by decide, by decide, by decide⟩

/-- Helper used to state adjacency claims: the adjacency set of a tile,
empty when get_adjacent_tiles raises. -/
def adjacency (tile_id : Int) : List Int :=
  match get_adjacent_tiles tile_id with
  | .ok s => s
  | .error _ => []

/-- Claim C10.  Tile adjacency is symmetric on the 37 real tiles: for
all a, b in [0, 37), b is adjacent to a iff a is adjacent to b (both
calls succeed on this range). -/
theorem adjacency_symm (a b : Nat) (ha : a < 37) (hb : b < 37) :
    ((get_adjacent_tiles a).isOk ∧ (get_adjacent_tiles b).isOk) ∧
      ((b : Int) ∈ adjacency a ↔ (a : Int) ∈ adjacency b) := by
  have h : ∀ x : Nat, x < 37 → ∀ y : Nat, y < 37 →
      ((get_adjacent_tiles x).isOk ∧ (get_adjacent_tiles y).isOk) ∧
        ((y : Int) ∈ adjacency x ↔ (x : Int) ∈ adjacency y) := by decide
  exact h a ha b hb

/-- Witness for C10 at a concrete pair of tiles. -/
theorem adjacency_symm_witness :
    (0 : Nat) < 37 ∧ (4 : Nat) < 37 ∧
      (((get_adjacent_tiles 0).isOk ∧ (get_adjacent_tiles 4).isOk) ∧
        ((4 : Int) ∈ adjacency 0 ↔ (0 : Int) ∈ adjacency 4)) :=
  ⟨by decide, by decide, adjacency_symm 0 4 (by decide) (by decide)⟩

/-- Claim C8 (divergence witness).  The claim says every tile id
outside [0, 37) makes get_adjacent_tiles fail fast.  Ids at or above 37
do raise, but the negative id -1 silently returns the spurious
adjacency set containing exactly tiles 0 and 4 (the list is our
insertion-ordered model of the Python set): the row-scan guard
`tile_id < cumulative + size` accepts every negative id at row 0. -/
theorem get_adjacent_tiles_negative_id :
    get_adjacent_tiles (-1) = .ok [4, 0] ∧
      (∀ t : Int, 37 ≤ t → get_adjacent_tiles t = .error "ValueError: Invalid tile_id") := by
  constructor
  · decide
  · intro t ht
    simp only [get_adjacent_tiles, tile_to_rowcol, ROW_SIZES, tile_to_rowcol_go]
    rw [if_neg (by omega), if_neg (by omega), if_neg (by omega), if_neg (by omega),
      if_neg (by omega), if_neg (by omega), if_neg (by omega)]

/-- Witness for C8 at a concrete out-of-range id. -/
theorem get_adjacent_tiles_negative_id_witness :
    get_adjacent_tiles (-1) = .ok [4, 0] ∧
      (37 : Int) ≤ 37 ∧ get_adjacent_tiles 37 = .error "ValueError: Invalid tile_id" :=
  ⟨get_adjacent_tiles_negative_id.1, by decide,
    get_adjacent_tiles_negative_id.2 37 (by decide)⟩

/-! ## The data model (game_state.py lines 329-443)

The pydantic models `Meta`, `Board`, `Player`, `GameState`.  Pydantic
type validation is modelled by the typing itself.  The optional
`settle_scores` score cache on `GameState` (None until
`evaluate_all_settlements` populates it) is not part of any claim and
is omitted. -/

/-- game_state.Meta. -/
structure Meta where
  t : Int
  p_curr : Int
  phase : String
  dice : List Int
  dev_rem : List Int
deriving DecidableEq, Repr, Inhabited

/-- game_state.Board.  `tiles` holds the [ResourceID, NumberToken]
pairs indexed by tile id; `ports`, `nodes`, `edges` are the three
key-indexed dicts. -/
structure Board where
  robber : Int
  tiles : List (Int × Int)
  ports : List (List Int × Int)
  nodes : List (List Int × (Int × Int))
  edges : List (List Int × Int)
deriving DecidableEq, Repr, Inhabited

/-- game_state.Player. -/
structure Player where
  id : Int
  public : List Int
  res_k : List Int
  res_u : List (List ℚ)
  devs : List (List ℚ)
deriving DecidableEq, Repr, Inhabited

/-- game_state.GameState. -/
structure GameState where
  meta : Meta
  map : Board
  players : List Player
deriving DecidableEq, Repr, Inhabited

/-! ## Port generation and validation (game_state.py lines 203-326, 412-441) -/

/-- game_state.generate_ports: scan tiles for NumberToken == -1 entries
sitting on one of the 9 fixed port tiles and record the port type on
both access nodes. -/
def generate_ports (tiles : List (Int × Int)) : List (List Int × Int) :=
  tiles.enum.foldl
    (fun ports p =>
      let tile_id : Int := p.1
      let res_id := p.2.1
      let number_token := p.2.2
      match (if number_token = -1 then dictGet PORT_TILE_TO_NODES tile_id else none) with
      | some (node_a, node_b) => dictSet (dictSet ports node_a res_id) node_b res_id
      | none => ports)
    []

/-- game_state.EXPECTED_PORT_COUNTS: 4 general 3:1 ports plus one 2:1
port per resource. -/
def EXPECTED_PORT_COUNTS : List (Int × Nat) :=
  [(5, 4), (0, 1), (1, 1), (2, 1), (3, 1), (4, 1)]

/-- Structured model of the error strings validate_ports appends; each
constructor carries the data the corresponding f-string interpolates. -/
inductive PortError where
  | pairMismatch (tile_id : Int) (node_a node_b : List Int) (type_a type_b : Int)
  | incompletePair (tile_id : Int) (present missing : List Int)
  | wrongEntryCount (got : Nat)
  | wrongDistribution (ptype : Int) (expected got : Nat)
  | tilesPortsConflict (node : List Int) (tiles_says ports_says : Int)
  | portNotInTiles (node : List Int)
  | missingFromPorts (node : List Int)
deriving DecidableEq, Repr

/-- Body of check 1 of validate_ports for one PORT_TILE_TO_NODES entry:
both access nodes of a physical port must carry the same type; a pair
with exactly one node present is incomplete. -/
def pair_check (ports : List (List Int × Int)) (e : Int × (List Int × List Int)) :
    List PortError :=
  match dictGet ports e.2.1, dictGet ports e.2.2 with
  | some ta, some tb =>
    if ta ≠ tb then [.pairMismatch e.1 e.2.1 e.2.2 ta tb] else []
  | some _, none => [.incompletePair e.1 e.2.1 e.2.2]
  | none, some _ => [.incompletePair e.1 e.2.2 e.2.1]
  | none, none => []

/-- Check 1 of validate_ports: the pair check over all 9 port tiles. -/
def check_pairs (ports : List (List Int × Int)) : List PortError :=
  PORT_TILE_TO_NODES.flatMap (pair_check ports)

/-- Entry-count part of check 2: exactly 18 port node entries. -/
def check_count (ports : List (List Int × Int)) : List PortError :=
  if ports.length ≠ 18 then [.wrongEntryCount ports.length] else []

/-- The type_counts tally of validate_ports: physical ports counted by
the type found on each port tile's first access node. -/
def port_type_count (ports : List (List Int × Int)) (ptype : Int) : Nat :=
  (PORT_TILE_TO_NODES.filterMap (fun e => dictGet ports e.2.1)).count ptype

/-- Distribution part of check 2: per-type physical port counts must
match EXPECTED_PORT_COUNTS. -/
def check_distribution (ports : List (List Int × Int)) : List PortError :=
  EXPECTED_PORT_COUNTS.flatMap (fun pe =>
    if port_type_count ports pe.1 ≠ pe.2 then
      [.wrongDistribution pe.1 pe.2 (port_type_count ports pe.1)]
    else [])

/-- Check 3 of validate_ports: the ports derived from tiles and the
declared ports dict must agree exactly (same keys, same types). -/
def check_agreement (tiles : List (Int × Int)) (ports : List (List Int × Int)) :
    List PortError :=
  let tiles_ports := generate_ports tiles
  (tiles_ports.flatMap (fun p =>
    match dictGet ports p.1 with
    | some pt => if pt ≠ p.2 then [.tilesPortsConflict p.1 p.2 pt] else []
    | none => []))
  ++ (ports.flatMap (fun p =>
    if dictMem tiles_ports p.1 then [] else [.portNotInTiles p.1]))
  ++ (tiles_ports.flatMap (fun p =>
    if dictMem ports p.1 then [] else [.missingFromPorts p.1]))

/-- game_state.validate_ports: the three checks in source order;
an empty result means valid. -/
def validate_ports (tiles : List (Int × Int)) (ports : List (List Int × Int)) :
    List PortError :=
  check_pairs ports ++ check_count ports ++ check_distribution ports
    ++ check_agreement tiles ports

/-- Step 1 of GameState.from_json: repair the ports dict from tile data
when it is absent or empty (Python truthiness: `if not ports and tiles`). -/
def repaired_ports (data : GameState) : List (List Int × Int) :=
  if data.map.ports = [] ∧ data.map.tiles ≠ [] then generate_ports data.map.tiles
  else data.map.ports

/-- The port errors from_json aggregates for its input. -/
def port_errors (data : GameState) : List PortError :=
  validate_ports data.map.tiles (repaired_ports data)

/-- game_state.GameState.from_json: repair missing ports, validate, and
either raise with the aggregated error list or return the validated
state.  The final construction applies Board._fill_ports_from_tiles
(the pydantic model validator), which re-derives ports only when they
are still empty. -/
def from_json (data : GameState) : Except (List PortError) GameState :=
  let repaired := repaired_ports data
  let errors := port_errors data
  if errors ≠ [] then .error errors
  else .ok { data with map := { data.map with ports :=
    if repaired = [] ∧ data.map.tiles ≠ [] then generate_ports data.map.tiles
    else repaired } }

/-- Specification-side description of a port violation, written from
the claim wording: a pair type mismatch or incomplete pair, a wrong
entry count, a wrong per-type distribution, or a tiles/ports
disagreement (conflicting type, spurious port node, or missing port
node). -/
def port_violation (tiles : List (Int × Int)) (ports : List (List Int × Int)) : Prop :=
  (∃ e ∈ PORT_TILE_TO_NODES, ∃ ta tb,
    dictGet ports e.2.1 = some ta ∧ dictGet ports e.2.2 = some tb ∧ ta ≠ tb)
  ∨ (∃ e ∈ PORT_TILE_TO_NODES, (dictGet ports e.2.1).isSome ≠ (dictGet ports e.2.2).isSome)
  ∨ ports.length ≠ 18
  ∨ (∃ pe ∈ EXPECTED_PORT_COUNTS, port_type_count ports pe.1 ≠ pe.2)
  ∨ (∃ nk tt pt, dictGet (generate_ports tiles) nk = some tt
      ∧ dictGet ports nk = some pt ∧ tt ≠ pt)
  ∨ (∃ nk ∈ ports.map Prod.fst, dictGet (generate_ports tiles) nk = none)
  ∨ (∃ nk ∈ (generate_ports tiles).map Prod.fst, dictGet ports nk = none)

theorem pair_check_eq_nil_iff (ports : List (List Int × Int))
    (e : Int × (List Int × List Int)) :
    pair_check ports e = [] ↔
      ((∀ ta tb, dictGet ports e.2.1 = some ta → dictGet ports e.2.2 = some tb → ta = tb)
        ∧ (dictGet ports e.2.1).isSome = (dictGet ports e.2.2).isSome) := by
  rw [pair_check]
  cases ha : dictGet ports e.2.1 with
  | none => cases hb : dictGet ports e.2.2 <;> simp [ha, hb]
  | some ta =>
    cases hb : dictGet ports e.2.2 with
    | none => simp [ha, hb]
    | some tb => by_cases hne : ta = tb <;> simp [ha, hb, hne]

theorem check_pairs_eq_nil_iff (ports : List (List Int × Int)) :
    check_pairs ports = [] ↔
      ¬ ((∃ e ∈ PORT_TILE_TO_NODES, ∃ ta tb,
          dictGet ports e.2.1 = some ta ∧ dictGet ports e.2.2 = some tb ∧ ta ≠ tb)
        ∨ (∃ e ∈ PORT_TILE_TO_NODES,
            (dictGet ports e.2.1).isSome ≠ (dictGet ports e.2.2).isSome)) := by
  rw [check_pairs, List.flatMap_eq_nil_iff]
  constructor
  · intro h
    rintro (⟨e, he, ta, tb, h1, h2, hne⟩ | ⟨e, he, hne⟩)
    · exact hne (((pair_check_eq_nil_iff ports e).mp (h e he)).1 ta tb h1 h2)
    · exact hne (((pair_check_eq_nil_iff ports e).mp (h e he)).2)
  · intro hn e he
    rw [pair_check_eq_nil_iff]
    constructor
    · intro ta tb h1 h2
      by_contra hne
      exact hn (Or.inl ⟨e, he, ta, tb, h1, h2, hne⟩)
    · by_contra hne
      exact hn (Or.inr ⟨e, he, hne⟩)

theorem check_count_eq_nil_iff (ports : List (List Int × Int)) :
    check_count ports = [] ↔ ¬ ports.length ≠ 18 := by
  rw [check_count]
  by_cases h : ports.length ≠ 18 <;> simp [h]

theorem check_distribution_eq_nil_iff (ports : List (List Int × Int)) :
    check_distribution ports = [] ↔
      ¬ ∃ pe ∈ EXPECTED_PORT_COUNTS, port_type_count ports pe.1 ≠ pe.2 := by
  rw [check_distribution, List.flatMap_eq_nil_iff]
  push_neg
  constructor
  · intro h pe hpe
    have := h pe hpe
    by_cases hc : port_type_count ports pe.1 ≠ pe.2 <;> simp_all
  · intro h pe hpe
    simp [h pe hpe]

theorem mem_of_dictGet_eq_some {α β : Type} [DecidableEq α]
    {d : List (α × β)} {k : α} {v : β} (h : dictGet d k = some v) : (k, v) ∈ d := by
  rw [dictGet, Option.map_eq_some'] at h
  obtain ⟨p, hfind, hsnd⟩ := h
  have hmem := List.mem_of_find?_eq_some hfind
  have hkey : p.1 = k := by simpa using List.find?_some hfind
  have : p = (k, v) := by
    cases p
    simp_all
  rwa [this] at hmem

theorem dictGet_isSome_of_mem {α β : Type} [DecidableEq α]
    {d : List (α × β)} {p : α × β} (h : p ∈ d) : (dictGet d p.1).isSome := by
  have hs : (List.find? (fun q : α × β => decide (q.1 = p.1)) d).isSome :=
    List.find?_isSome.mpr ⟨p, h, by simp⟩
  rw [dictGet]
  cases hf : List.find? (fun q : α × β => decide (q.1 = p.1)) d with
  | none => rw [hf] at hs; simp at hs
  | some q => simp

theorem dictGet_of_mem_nodup {α β : Type} [DecidableEq α]
    {d : List (α × β)} {p : α × β} (hnd : (d.map Prod.fst).Nodup) (h : p ∈ d) :
    dictGet d p.1 = some p.2 := by
  induction d with
  | nil => cases h
  | cons q rest ih =>
    rcases List.mem_cons.mp h with rfl | hrest
    · simp [dictGet]
    · have hq : q.1 ≠ p.1 := by
        intro he
        have : p.1 ∈ rest.map Prod.fst := List.mem_map_of_mem _ hrest
        rw [List.map_cons] at hnd
        exact (List.nodup_cons.mp hnd).1 (he ▸ this)
      have hrec := ih (List.nodup_cons.mp (by rwa [List.map_cons] at hnd)).2 hrest
      simpa [dictGet, hq] using hrec

theorem dictSet_keys_nodup {α β : Type} [DecidableEq α]
    {d : List (α × β)} (k : α) (v : β) (hnd : (d.map Prod.fst).Nodup) :
    ((dictSet d k v).map Prod.fst).Nodup := by
  rw [dictSet]
  by_cases hm : dictMem d k
  · simp only [if_pos hm]
    have : (d.map (fun p => if p.1 = k then (k, v) else p)).map Prod.fst = d.map Prod.fst := by
      rw [List.map_map]
      apply List.map_congr_left
      intro p _
      by_cases h : p.1 = k <;> simp [h]
    rwa [this]
  · simp only [if_neg hm]
    rw [List.map_append]
    apply List.Nodup.append hnd (by simp)
    intro a ha hb
    simp only [List.map_cons, List.map_nil, List.mem_singleton] at hb
    subst hb
    obtain ⟨p, hp, hfst⟩ := List.mem_map.mp ha
    have := dictGet_isSome_of_mem hp
    rw [hfst] at this
    simp [dictMem, this] at hm

theorem generate_ports_keys_nodup (tiles : List (Int × Int)) :
    ((generate_ports tiles).map Prod.fst).Nodup := by
  rw [generate_ports]
  have main : ∀ (l : List (Nat × (Int × Int))) (acc : List (List Int × Int)),
      (acc.map Prod.fst).Nodup →
      ((l.foldl
        (fun ports p =>
          let tile_id : Int := p.1
          let res_id := p.2.1
          let number_token := p.2.2
          match (if number_token = -1 then dictGet PORT_TILE_TO_NODES tile_id else none) with
          | some (node_a, node_b) => dictSet (dictSet ports node_a res_id) node_b res_id
          | none => ports)
        acc).map Prod.fst).Nodup := by
    intro l
    induction l with
    | nil => intro acc h; simpa using h
    | cons p rest ih =>
      intro acc h
      rw [List.foldl_cons]
      apply ih
      cases hm : (if p.2.2 = -1 then dictGet PORT_TILE_TO_NODES (p.1 : Int) else none) with
      | none => simpa [hm] using h
      | some nodes =>
        cases nodes with
        | mk a b => simpa [hm] using dictSet_keys_nodup b p.2.1 (dictSet_keys_nodup a p.2.1 h)
  exact main tiles.enum [] (by simp)

theorem check_agreement_eq_nil_iff (tiles : List (Int × Int))
    (ports : List (List Int × Int)) :
    check_agreement tiles ports = [] ↔
      ¬ ((∃ nk tt pt, dictGet (generate_ports tiles) nk = some tt
            ∧ dictGet ports nk = some pt ∧ tt ≠ pt)
        ∨ (∃ nk ∈ ports.map Prod.fst, dictGet (generate_ports tiles) nk = none)
        ∨ (∃ nk ∈ (generate_ports tiles).map Prod.fst, dictGet ports nk = none)) := by
  rw [check_agreement]
  simp only [List.append_eq_nil, List.flatMap_eq_nil_iff]
  push_neg
  constructor
  · rintro ⟨⟨hconf, hspur⟩, hmiss⟩
    refine ⟨?_, ?_, ?_⟩
    · intro nk tt pt hg hp
      by_contra hne
      have hpr : (nk, tt) ∈ generate_ports tiles := mem_of_dictGet_eq_some hg
      have := hconf (nk, tt) hpr
      rw [hp] at this
      simp [Ne.symm hne] at this
    · intro nk hnk
      obtain ⟨pr, hpr, hfst⟩ := List.mem_map.mp hnk
      intro hnone
      have := hspur pr hpr
      rw [hfst] at this
      simp [dictMem, hnone] at this
    · intro nk hnk
      obtain ⟨pr, hpr, hfst⟩ := List.mem_map.mp hnk
      intro hnone
      have := hmiss pr hpr
      rw [hfst] at this
      simp [dictMem, hnone] at this
  · rintro ⟨h1, h2, h3⟩
    refine ⟨⟨?_, ?_⟩, ?_⟩
    · intro pr hpr
      cases hp : dictGet ports pr.1 with
      | none => simp
      | some pt =>
        have hg : dictGet (generate_ports tiles) pr.1 = some pr.2 :=
          dictGet_of_mem_nodup (generate_ports_keys_nodup tiles) hpr
        have : pr.2 = pt := h1 pr.1 pr.2 pt hg hp
        simp [this]
    · intro pr hpr
      have hne := h2 pr.1 (List.mem_map_of_mem _ hpr)
      have : dictMem (generate_ports tiles) pr.1 := by
        rw [dictMem, Option.isSome_iff_ne_none]
        exact hne
      simp [this]
    · intro pr hpr
      have hne := h3 pr.1 (List.mem_map_of_mem _ hpr)
      have : dictMem ports pr.1 := by
        rw [dictMem, Option.isSome_iff_ne_none]
        exact hne
      simp [this]

theorem validate_ports_eq_nil_iff (tiles : List (Int × Int))
    (ports : List (List Int × Int)) :
    validate_ports tiles ports = [] ↔ ¬ port_violation tiles ports := by
  constructor
  · intro h hv
    rw [validate_ports] at h
    simp only [List.append_eq_nil] at h
    obtain ⟨⟨⟨hcp, hcc⟩, hcd⟩, hca⟩ := h
    rcases hv with h1 | h2 | h3 | h4 | h5 | h6 | h7
    · exact (check_pairs_eq_nil_iff ports).mp hcp (Or.inl h1)
    · exact (check_pairs_eq_nil_iff ports).mp hcp (Or.inr h2)
    · exact (check_count_eq_nil_iff ports).mp hcc h3
    · exact (check_distribution_eq_nil_iff ports).mp hcd ⟨h4.choose, h4.choose_spec⟩
    · exact (check_agreement_eq_nil_iff tiles ports).mp hca (Or.inl h5)
    · exact (check_agreement_eq_nil_iff tiles ports).mp hca (Or.inr (Or.inl h6))
    · exact (check_agreement_eq_nil_iff tiles ports).mp hca (Or.inr (Or.inr h7))
  · intro hv
    rw [validate_ports]
    simp only [List.append_eq_nil]
    refine ⟨⟨⟨?_, ?_⟩, ?_⟩, ?_⟩
    · exact (check_pairs_eq_nil_iff ports).mpr
        (fun hc => hv (hc.elim (fun a => Or.inl a) (fun b => Or.inr (Or.inl b))))
    · exact (check_count_eq_nil_iff ports).mpr
        (fun hc => hv (Or.inr (Or.inr (Or.inl hc))))
    · exact (check_distribution_eq_nil_iff ports).mpr
        (fun hc => hv (Or.inr (Or.inr (Or.inr (Or.inl hc)))))
    · refine (check_agreement_eq_nil_iff tiles ports).mpr (fun hc => hv ?_)
      rcases hc with a | b | c
      · exact Or.inr (Or.inr (Or.inr (Or.inr (Or.inl a))))
      · exact Or.inr (Or.inr (Or.inr (Or.inr (Or.inr (Or.inl b)))))
      · exact Or.inr (Or.inr (Or.inr (Or.inr (Or.inr (Or.inr c)))))

theorem from_json_of_errors (data : GameState) (he : port_errors data ≠ []) :
    from_json data = .error (port_errors data) := by
  simp only [from_json]
  rw [if_pos he]

theorem from_json_of_no_errors (data : GameState) (he : port_errors data = []) :
    from_json data = .ok { data with map := { data.map with ports := repaired_ports data } } := by
  have hcc : check_count (repaired_ports data) = [] := by
    rw [port_errors, validate_ports] at he
    simp only [List.append_eq_nil] at he
    exact he.1.1.2
  have hlen : (repaired_ports data).length = 18 := by
    by_contra hne
    rw [check_count, if_pos hne] at hcc
    cases hcc
  have hnn : ¬ (repaired_ports data = [] ∧ data.map.tiles ≠ []) := by
    rintro ⟨hnil, -⟩
    rw [hnil] at hlen
    cases hlen
  simp only [from_json]
  rw [if_neg (not_not_intro he), if_neg hnn]

/-- Claim C5.  from_json derives the ports map from tile data exactly
when the declared map is empty, validates, raises exactly when a port
violation exists (with an error value enumerating every violation of
every kind found, not just the first), and on success returns the state
carrying the fully repaired and validated ports map. -/
theorem from_json_port_contract (data : GameState) :
    (repaired_ports data
      = if data.map.ports = [] then generate_ports data.map.tiles else data.map.ports)
    ∧ (from_json data = .error (port_errors data)
        ↔ port_violation data.map.tiles (repaired_ports data))
    ∧ (∀ gsv, from_json data = .ok gsv →
        ¬ port_violation data.map.tiles (repaired_ports data)
          ∧ gsv = { data with map := { data.map with ports := repaired_ports data } })
    ∧ (∀ e ∈ PORT_TILE_TO_NODES, ∀ ta tb,
        dictGet (repaired_ports data) e.2.1 = some ta →
        dictGet (repaired_ports data) e.2.2 = some tb → ta ≠ tb →
        PortError.pairMismatch e.1 e.2.1 e.2.2 ta tb ∈ port_errors data)
    ∧ ((repaired_ports data).length ≠ 18 →
        PortError.wrongEntryCount (repaired_ports data).length ∈ port_errors data)
    ∧ (∀ pe ∈ EXPECTED_PORT_COUNTS,
        port_type_count (repaired_ports data) pe.1 ≠ pe.2 →
        PortError.wrongDistribution pe.1 pe.2 (port_type_count (repaired_ports data) pe.1)
          ∈ port_errors data)
    ∧ (∀ nk tt pt, dictGet (generate_ports data.map.tiles) nk = some tt →
        dictGet (repaired_ports data) nk = some pt → tt ≠ pt →
        PortError.tilesPortsConflict nk tt pt ∈ port_errors data)
    ∧ (∀ nk ∈ (repaired_ports data).map Prod.fst,
        dictGet (generate_ports data.map.tiles) nk = none →
        PortError.portNotInTiles nk ∈ port_errors data)
    ∧ (∀ nk ∈ (generate_ports data.map.tiles).map Prod.fst,
        dictGet (repaired_ports data) nk = none →
        PortError.missingFromPorts nk ∈ port_errors data) := by
  refine ⟨?_, ?_, ?_, ?_, ?_, ?_, ?_, ?_, ?_⟩
  · rw [repaired_ports]
    by_cases hp : data.map.ports = []
    · by_cases ht : data.map.tiles = []
      · rw [if_neg (fun hc => hc.2 ht), if_pos hp, hp, ht]
        decide
      · rw [if_pos ⟨hp, ht⟩, if_pos hp]
    · rw [if_neg (fun hc => hp hc.1), if_neg hp]
  · constructor
    · intro h
      by_cases he : port_errors data = []
      · rw [from_json_of_no_errors data he] at h
        cases h
      · by_contra hv
        exact he ((validate_ports_eq_nil_iff _ _).mpr hv)
    · intro hv
      have he : port_errors data ≠ [] := by
        intro he
        exact ((validate_ports_eq_nil_iff _ _).mp he) hv
      exact from_json_of_errors data he
  · intro gsv h
    have he : port_errors data = [] := by
      by_cases he : port_errors data = []
      · exact he
      · rw [from_json_of_errors data he] at h
        cases h
    refine ⟨(validate_ports_eq_nil_iff _ _).mp he, ?_⟩
    rw [from_json_of_no_errors data he] at h
    exact (Except.ok.inj h).symm
  · intro e he ta tb ha hb hne
    rw [port_errors, validate_ports]
    refine List.mem_append_left _ (List.mem_append_left _ (List.mem_append_left _ ?_))
    rw [check_pairs]
    refine List.mem_flatMap.mpr ⟨e, he, ?_⟩
    rw [pair_check, ha, hb]
    simp [hne]
  · intro hlen
    rw [port_errors, validate_ports]
    refine List.mem_append_left _ (List.mem_append_left _ (List.mem_append_right _ ?_))
    rw [check_count]
    simp [hlen]
  · intro pe hpe hcnt
    rw [port_errors, validate_ports]
    refine List.mem_append_left _ (List.mem_append_right _ ?_)
    rw [check_distribution]
    refine List.mem_flatMap.mpr ⟨pe, hpe, ?_⟩
    simp [hcnt]
  · intro nk tt pt hg hp hne
    rw [port_errors, validate_ports]
    refine List.mem_append_right _ ?_
    rw [check_agreement]
    refine List.mem_append_left _ (List.mem_append_left _ ?_)
    refine List.mem_flatMap.mpr ⟨(nk, tt), mem_of_dictGet_eq_some hg, ?_⟩
    rw [hp]
    simp [Ne.symm hne]
  · intro nk hnk hnone
    rw [port_errors, validate_ports]
    refine List.mem_append_right _ ?_
    rw [check_agreement]
    refine List.mem_append_left _ (List.mem_append_right _ ?_)
    obtain ⟨pr, hpr, hfst⟩ := List.mem_map.mp hnk
    refine List.mem_flatMap.mpr ⟨pr, hpr, ?_⟩
    rw [hfst]
    simp [dictMem, hnone]
  · intro nk hnk hnone
    rw [port_errors, validate_ports]
    refine List.mem_append_right _ ?_
    rw [check_agreement]
    refine List.mem_append_right _ ?_
    obtain ⟨pr, hpr, hfst⟩ := List.mem_map.mp hnk
    refine List.mem_flatMap.mpr ⟨pr, hpr, ?_⟩
    rw [hfst]
    simp [dictMem, hnone]

/-- Concrete malformed input used as the C5 witness: a single declared
port entry with no tile data behind it. -/
def dataW : GameState :=
  { meta := { t := 0, p_curr := 0, phase := "settle", dice := [], dev_rem := [] },
    map := { robber := 0, tiles := [], ports := [([0, 1, 5], 5)],
             nodes := [], edges := [] },
    players := [] }

/-- Witness for C5: on dataW, from_json raises with the aggregated
error list, and the wrong-entry-count violation it contains is
enumerated there. -/
theorem from_json_port_contract_witness :
    from_json dataW = .error (port_errors dataW)
    ∧ (repaired_ports dataW).length ≠ 18
    ∧ PortError.wrongEntryCount (repaired_ports dataW).length ∈ port_errors dataW :=
  ⟨((from_json_port_contract dataW).2.1).mpr (Or.inr (Or.inr (Or.inl (by decide)))),
   by decide,
   (from_json_port_contract dataW).2.2.2.2.1 (by decide)⟩

/-! ## Settlement scoring (settle_eval_simple.py)

Scores mix exact rational data (pip counts) with `math.pow` dampening
and `math.exp` softmax, so production vectors are `ℚ` and scores are
`ℝ`.  Python floats are modelled as exact reals. -/

/-- settle_eval_simple.BASE_RESOURCE_STRENGTH. -/
noncomputable def BASE_RESOURCE_STRENGTH : List ℝ := [1, 1, 9/10, 11/10, 11/10]

/-- settle_eval_simple.DAMPENING_FACTOR (0.5). -/
noncomputable def DAMPENING_FACTOR : ℝ := 1/2

/-- settle_eval_simple.PORT_BONUS. -/
noncomputable def PORT_BONUS : ℝ := 2

/-- settle_eval_simple.PRIME_VARIATE_BONUS. -/
noncomputable def PRIME_VARIATE_BONUS : ℝ := 2

/-- settle_eval_simple.PARITY_PREFERENCE (0.8). -/
def PARITY_PREFERENCE : ℚ := 4/5

/-- settle_eval_simple.EVAL_WEIGHTS. -/
noncomputable def EVAL_WEIGHTS : List ℝ := [1, 3/2, 1, 1, 1]

/-- settle_eval_simple.K, the settle-decision softmax spread factor. -/
noncomputable def K : ℝ := 5/2

/-- settle_eval_simple._number_to_pips via the _PIPS table (unknown
tokens, including 7 and 0, give 0). -/
def number_to_pips (number_token : Int) : ℚ :=
  match number_token with
  | 2 => 1 | 3 => 2 | 4 => 3 | 5 => 4 | 6 => 5
  | 8 => 5 | 9 => 4 | 10 => 3 | 11 => 2 | 12 => 1
  | _ => 0

/-- Python `tiles[tid]` made total: out-of-range ids yield an inert
ocean tile (6, 0) instead of IndexError; every claim below only
exercises canonical keys against full 37-entry tile arrays, where the
two semantics agree. -/
def tileAt (tiles : List (Int × Int)) (tid : Int) : Int × Int :=
  if 0 ≤ tid then tiles.getD tid.toNat (6, 0) else (6, 0)

/-- In-place `totals[i] += x` on a 5-element accumulator list. -/
def listAddAt {R : Type} [Zero R] [Add R] (l : List R) (i : Nat) (x : R) : List R :=
  l.set i (l.getD i 0 + x)

/-- settle_eval_simple._total_production_by_resource: per-resource pip
totals over all land tiles. -/
def total_production_by_resource (gs : GameState) : List ℚ :=
  gs.map.tiles.foldl
    (fun totals t =>
      if 0 ≤ t.1 ∧ t.1 ≤ 4 ∧ 2 ≤ t.2 then
        listAddAt totals t.1.toNat (number_to_pips t.2)
      else totals)
    (List.replicate 5 0)

/-- settle_eval_simple._COMPLEMENT: Wood-Brick and Grain-Ore. -/
def COMPLEMENT : List (Nat × Nat) := [(0, 1), (1, 0), (3, 4), (4, 3)]

/-- settle_eval_simple._compute_relative_strengths: base strength times
overall scarcity (20 when production is zero) times the complement
pairwise ratio, dampened by DAMPENING_FACTOR.  Its Python signature has
the single positional parameter total_prod. -/
noncomputable def compute_relative_strengths (total_prod : List ℝ) : List ℝ :=
  (List.range 5).map (fun r =>
    let base := BASE_RESOURCE_STRENGTH.getD r 0
    let tp := total_prod.getD r 0
    let overall : ℝ := if 0 < tp then 1 / tp else 20
    let pairwise : ℝ :=
      match dictGet COMPLEMENT r with
      | some c => if 0 < total_prod.getD c 0 then tp / total_prod.getD c 0 else 1
      | none => 1
    let raw := base * overall * pairwise
    if 0 < raw then raw ^ DAMPENING_FACTOR else 0)

/-- Parameter-name list of _compute_relative_strengths, used to model
Python keyword-argument call semantics. -/
def compute_relative_strengths_params : List String := ["total_prod"]

/-- Whether a keyword-argument list is accepted by the signature of
_compute_relative_strengths. -/
def crs_accepts_kwargs (kwargs : List String) : Bool :=
  kwargs.all (fun kw => compute_relative_strengths_params.contains kw)

/-- The TypeError Python raises when a call passes a keyword the callee
does not declare. -/
def dampening_type_error : String :=
  "TypeError: _compute_relative_strengths got an unexpected keyword argument dampening"

/-- Python call semantics of `_compute_relative_strengths(args, **kwargs)`:
the callee body runs only when every keyword is a declared parameter;
otherwise the call raises TypeError before the body executes.
robber_predict.py lines 178-179 and init_eval.py lines 383-384 pass the
keyword `dampening`, which the signature (a single `total_prod`
parameter) does not declare. -/
noncomputable def call_compute_relative_strengths (total_prod : List ℝ)
    (kwargs : List String) : Except String (List ℝ) :=
  if crs_accepts_kwargs kwargs then .ok (compute_relative_strengths total_prod)
  else .error dampening_type_error

/-- settle_eval_simple._compute_port_strengths: dampened per-resource
yields normalised so the second-highest equals 1; the 3:1 port type 5
is pinned at 1 and unknown types default to 0 (the .get default at the
use site). -/
noncomputable def compute_port_strengths (total_prod : List ℚ) : Int → ℝ :=
  let dampened_yields :=
    total_prod.map (fun p => if 0 < p then ((p : ℝ)) ^ DAMPENING_FACTOR else 0)
  let sorted_yields := dampened_yields.mergeSort (fun a b => decide (b ≤ a))
  let second_highest := if 1 < sorted_yields.length then sorted_yields.getD 1 0 else 1
  let norm := if 0 < second_highest then second_highest else 1
  fun ptype =>
    if ptype = 5 then 1
    else if 0 ≤ ptype ∧ ptype < 5 then dampened_yields.getD ptype.toNat 0 / norm
    else 0

/-- settle_eval_simple._spot_production: per-resource pips of the three
tiles of a node, skipping the robber tile. -/
def spot_production (gs : GameState) (node_key : List Int) : List ℚ :=
  node_key.foldl
    (fun prod tid =>
      let t := tileAt gs.map.tiles tid
      if 0 ≤ t.1 ∧ t.1 ≤ 4 ∧ 2 ≤ t.2 ∧ tid ≠ gs.map.robber then
        listAddAt prod t.1.toNat (number_to_pips t.2)
      else prod)
    (List.replicate 5 0)

/-- settle_eval_simple.score_settlement: weighted sum of raw
production, scarcity-weighted production, port bonus, prime-variate
bonus and complement-parity bonus. -/
noncomputable def score_settlement (gs : GameState) (node_key : List Int) : ℝ :=
  let total_prod := total_production_by_resource gs
  let rel_strengths := compute_relative_strengths (total_prod.map (fun q => (q : ℝ)))
  let port_strengths := compute_port_strengths total_prod
  let prod := spot_production gs node_key
  let raw_prod : ℚ := prod.sum
  let scarcity_weighted : ℝ :=
    ((prod.zip rel_strengths).map (fun pr => (pr.1 : ℝ) * pr.2)).sum
  let port_bonus_val : ℝ :=
    match dictGet gs.map.ports node_key with
    | some port_type => port_strengths port_type * PORT_BONUS
    | none => 0
  let distinct_resources := (prod.filter (fun p => decide (0 < p))).length
  let prime_variate_val : ℝ :=
    if 10 ≤ raw_prod ∧ 3 ≤ distinct_resources then PRIME_VARIATE_BONUS else 0
  let parity_val : ℚ :=
    (if 0 < prod.getD 0 0 ∧ 0 < prod.getD 1 0 then
      PARITY_PREFERENCE * min (prod.getD 0 0) (prod.getD 1 0) else 0)
    + (if 0 < prod.getD 3 0 ∧ 0 < prod.getD 4 0 then
      PARITY_PREFERENCE * min (prod.getD 3 0) (prod.getD 4 0) else 0)
  let metrics : List ℝ :=
    [(raw_prod : ℝ), scarcity_weighted, port_bonus_val, prime_variate_val, (parity_val : ℝ)]
  ((metrics.zip EVAL_WEIGHTS).map (fun mw => mw.1 * mw.2)).sum

/-- Two node keys block each other under the distance rule when their
tile-id sets share exactly 2 elements (`len(occ_tiles & node_tiles) == 2`). -/
def shares_two (a b : List Int) : Bool :=
  (a.toFinset ∩ b.toFinset).card = 2

/-- The blocked set built by rank_all_spots (and _pick_road): every
occupied key plus every candidate node sharing exactly two tiles with
an occupied key.  The list is a set up to membership. -/
def blocked_nodes (occ_keys : List (List Int)) (all_nodes : List (List Int)) :
    List (List Int) :=
  occ_keys.flatMap (fun occ => occ :: all_nodes.filter (fun n => shares_two occ n))

/-- The open spots rank_all_spots scores: the 54 valid nodes (in
Python string-sorted order) minus the blocked set. -/
def open_spots (gs : GameState) : List (List Int) :=
  VALID_NODES.filter
    (fun n => ! (blocked_nodes (gs.map.nodes.map Prod.fst) VALID_NODES).contains n)

/-- settle_eval_simple.rank_all_spots: score every open spot and sort
descending by score (Python sort is stable; mergeSort with a
greater-or-equal test matches it). -/
noncomputable def rank_all_spots (gs : GameState) (top_n : Option Nat := none) :
    List (List Int × ℝ) :=
  let results := (open_spots gs).map (fun n => (n, score_settlement gs n))
  let sorted := results.mergeSort (fun a b => decide (b.2 ≤ a.2))
  match top_n with
  | some n => sorted.take n
  | none => sorted

/-- settle_eval_simple._is_land_tile: not ocean and not a port. -/
def is_land_tile (tiles : List (Int × Int)) (tile_id : Int) : Bool :=
  let t := tileAt tiles tile_id
  t.1 ≠ 6 && t.2 ≠ -1

/-- settle_eval_simple._is_valid_road_edge: at least one tile of the
pair is land. -/
def is_valid_road_edge (tiles : List (Int × Int)) (edge_key : List Int) : Bool :=
  is_land_tile tiles (edge_key.getD 0 0) || is_land_tile tiles (edge_key.getD 1 0)

/-- Sorted two-element edge key. -/
def sortPair (a b : Int) : List Int := if a ≤ b then [a, b] else [b, a]

/-- settle_eval_simple._get_node_edges: the three sorted tile pairs of
a node, in index order (0,1), (0,2), (1,2). -/
def get_node_edges (node_key : List Int) : List (List Int) :=
  let t0 := node_key.getD 0 0
  let t1 := node_key.getD 1 0
  let t2 := node_key.getD 2 0
  [sortPair t0 t1, sortPair t0 t2, sortPair t1 t2]

/-- settle_eval_simple._get_other_node: the valid node on the far side
of an edge, or none at the board boundary.  The set difference pop and
the set iteration are deterministic here because at most one candidate
survives on canonical inputs. -/
def get_other_node (edge_key from_node : List Int) : Option (List Int) :=
  let third := (from_node.filter (fun t => ! edge_key.contains t)).getD 0 0
  let s := pysorted edge_key
  let t1 := s.getD 0 0
  let t2 := s.getD 1 0
  let common :=
    ((adjacency t1).filter (fun t => (adjacency t2).contains t)).filter (fun t => t ≠ third)
  (common.map (fun ot => pysorted [t1, t2, ot])).find?
    (fun key => VALID_NODES.contains key)

/-- Fuel bound for the BFS loop.  Each loop iteration pops one queue
entry; an entry is enqueued only together with a fresh insertion into
the visited dict, whose keys are the start node plus nodes returned by
get_other_node (all in the 54-element VALID_NODES), so at most 55
entries ever enter the queue; 256 is a safe bound. -/
def BFS_FUEL : Nat := 256

/-- Loop of settle_eval_simple._bfs_from_node: pop the queue head;
unless its distance has reached max_dist, visit each unoccupied valid
road edge of the node, recording unvisited far nodes with distance + 1
and the first edge of the path, and appending them to the queue. -/
def bfs_from_node_go (gs : GameState) (max_dist : Nat) :
    Nat → List (List Int × Nat × Option (List Int)) →
    List (List Int × (Nat × Option (List Int))) →
    List (List Int × (Nat × Option (List Int)))
  | 0, _, visited => visited
  | _ + 1, [], visited => visited
  | fuel + 1, (current, dist, first_edge) :: queue, visited =>
    if max_dist ≤ dist then bfs_from_node_go gs max_dist fuel queue visited
    else
      match (get_node_edges current).foldl
        (fun (acc : List (List Int × Nat × Option (List Int))
            × List (List Int × (Nat × Option (List Int)))) edge =>
          if is_valid_road_edge gs.map.tiles edge && ! dictMem gs.map.edges edge then
            match get_other_node edge current with
            | some neighbor =>
              if dictMem acc.2 neighbor then acc
              else
                let fe := match first_edge with | some e => some e | none => some edge
                (acc.1 ++ [(neighbor, dist + 1, fe)], acc.2 ++ [(neighbor, (dist + 1, fe))])
            | none => acc
          else acc)
        (queue, visited) with
      | (queue2, visited2) => bfs_from_node_go gs max_dist fuel queue2 visited2

/-- settle_eval_simple._bfs_from_node: visited dict (in insertion
order) mapping each reachable node within max_dist road edges to its
distance and the first edge of a shortest path. -/
def bfs_from_node (gs : GameState) (start : List Int) (max_dist : Nat) :
    List (List Int × (Nat × Option (List Int))) :=
  bfs_from_node_go gs max_dist BFS_FUEL [(start, 0, none)] [(start, (0, none))]

/-- Python max() over a list of floats (never called on []; the []
case is given an inert default). -/
noncomputable def pymax : List ℝ → ℝ
  | [] => 0
  | h :: t => t.foldl max h

/-- settle_eval_simple._softmax: numerically-stable softmax with
spread control (temperature = 1/spread for positive spread). -/
noncomputable def softmax (values : List ℝ) (spread_factor : ℝ) : List ℝ :=
  let temperature := if 0 < spread_factor then 1 / spread_factor else 1
  let scaled := values.map (fun v => v / temperature)
  let m := pymax scaled
  let exps := scaled.map (fun v => Real.exp (v - m))
  let s := exps.sum
  exps.map (fun e => e / s)

/-- settle_eval_simple._pick_road: BFS from the settlement (3 edges),
drop the settlement itself, the excluded keys, the distance-rule
blocked nodes and unscored nodes, then take the first edge toward the
highest-scoring target (strictly improving scan in visit order, which
models best_score starting at -inf); fall back to any valid unoccupied
adjacent edge, then to the first adjacent edge. -/
noncomputable def pick_road (gs : GameState) (settle_spot : List Int)
    (score_lookup : List (List Int × ℝ)) (excluded_keys : List (List Int)) :
    List Int :=
  let reachable := bfs_from_node gs settle_spot 3
  let blocked := blocked_nodes (gs.map.nodes.map Prod.fst) (reachable.map Prod.fst)
  let best := reachable.foldl
    (fun (acc : Option (Option (List Int) × ℝ)) entry =>
      if entry.2.1 = 0 then acc
      else if excluded_keys.contains entry.1 then acc
      else if blocked.contains entry.1 then acc
      else
        match dictGet score_lookup entry.1 with
        | none => acc
        | some sc =>
          match acc with
          | none => some (entry.2.2, sc)
          | some b => if b.2 < sc then some (entry.2.2, sc) else acc)
    none
  match best with
  | some (some edge, _) => edge
  | _ =>
    match (get_node_edges settle_spot).find?
      (fun e => is_valid_road_edge gs.map.tiles e && ! dictMem gs.map.edges e) with
    | some edge => edge
    | none => (get_node_edges settle_spot).getD 0 []

/-- settle_eval_simple.settle_decision: rank the open spots, keep the
top 3, softmax their scores with spread K, and pair each settlement
with its picked road. -/
noncomputable def settle_decision (gs : GameState) :
    List ((List Int × List Int) × ℝ) :=
  let ranked := rank_all_spots gs
  if ranked.isEmpty then []
  else
    let n := min 3 ranked.length
    let top := ranked.take n
    let top12_keys := (ranked.take 12).map Prod.fst
    let scores := top.map Prod.snd
    let probs := softmax scores K
    let score_lookup := ranked
    (top.zip probs).map
      (fun tp => ((tp.1.1, pick_road gs tp.1.1 score_lookup top12_keys), tp.2))

/-! ## Properties of the softmax and of the open-spot computation -/

theorem softmax_length (values : List ℝ) (k : ℝ) :
    (softmax values k).length = values.length := by
  simp [softmax]

theorem exps_sum_pos (values : List ℝ) (k : ℝ) (h : values ≠ []) :
    0 < ((values.map (fun v => v / (if 0 < k then 1 / k else 1))).map
      (fun v => Real.exp (v - pymax (values.map (fun v => v / (if 0 < k then 1 / k else 1)))))).sum := by
  apply List.sum_pos
  · intro x hx
    obtain ⟨v, _, rfl⟩ := List.mem_map.mp hx
    exact Real.exp_pos _
  · simp only [ne_eq, List.map_eq_nil_iff]
    exact h

theorem softmax_sum_eq_one (values : List ℝ) (k : ℝ) (h : values ≠ []) :
    (softmax values k).sum = 1 := by
  simp only [softmax]
  have hs := exps_sum_pos values k h
  set scaled := values.map (fun v => v / (if 0 < k then 1 / k else 1)) with hscaled
  set exps := scaled.map (fun v => Real.exp (v - pymax scaled)) with hexps
  have : (exps.map (fun e => e / exps.sum)).sum = (exps.map (fun e => e)).sum * (exps.sum)⁻¹ := by
    simp only [div_eq_mul_inv]
    exact List.sum_map_mul_right exps (fun e => e) _
  rw [this]
  simp only [List.map_id']
  exact mul_inv_cancel₀ (ne_of_gt hs)

theorem softmax_pos (values : List ℝ) (k : ℝ) (h : values ≠ []) :
    ∀ p ∈ softmax values k, 0 < p := by
  simp only [softmax]
  intro p hp
  have hs := exps_sum_pos values k h
  obtain ⟨e, he, rfl⟩ := List.mem_map.mp hp
  obtain ⟨v, _, rfl⟩ := List.mem_map.mp he
  exact div_pos (Real.exp_pos _) hs

theorem mem_blocked_of_occ {occ_keys all_nodes : List (List Int)} {occ : List Int}
    (h : occ ∈ occ_keys) : occ ∈ blocked_nodes occ_keys all_nodes :=
  List.mem_flatMap.mpr ⟨occ, h, List.mem_cons_self _ _⟩

theorem mem_blocked_of_shares {occ_keys all_nodes : List (List Int)}
    {occ n : List Int} (ho : occ ∈ occ_keys) (hn : n ∈ all_nodes)
    (hs : shares_two occ n = true) : n ∈ blocked_nodes occ_keys all_nodes :=
  List.mem_flatMap.mpr ⟨occ, ho, List.mem_cons_of_mem _ (List.mem_filter.mpr ⟨hn, hs⟩)⟩

theorem open_spots_spec (gs : GameState) (n : List Int) (h : n ∈ open_spots gs) :
    n ∈ VALID_NODES ∧ dictGet gs.map.nodes n = none ∧
      ∀ occ ∈ gs.map.nodes.map Prod.fst, shares_two occ n = false := by
  rw [open_spots] at h
  obtain ⟨hmem, hnb⟩ := List.mem_filter.mp h
  rw [Bool.not_eq_eq_eq_not, Bool.not_true, List.contains_eq_any_beq,
    List.any_eq_false] at hnb
  have hnotin : n ∉ blocked_nodes (gs.map.nodes.map Prod.fst) VALID_NODES := by
    intro hin
    simpa using hnb n hin
  refine ⟨hmem, ?_, ?_⟩
  · cases hd : dictGet gs.map.nodes n with
    | none => rfl
    | some v =>
      exfalso
      have hk : n ∈ gs.map.nodes.map Prod.fst := by
        have hm := mem_of_dictGet_eq_some hd
        exact List.mem_map.mpr ⟨(n, v), hm, rfl⟩
      exact hnotin (mem_blocked_of_occ hk)
  · intro occ hocc
    by_contra hs2
    rw [Bool.not_eq_false] at hs2
    exact hnotin (mem_blocked_of_shares hocc hmem hs2)

theorem rank_all_spots_length (gs : GameState) :
    (rank_all_spots gs).length = (open_spots gs).length := by
  unfold rank_all_spots
  simp

theorem rank_all_spots_mem {gs : GameState} {e : List Int × ℝ}
    (h : e ∈ rank_all_spots gs) : e.1 ∈ open_spots gs := by
  rw [rank_all_spots] at h
  have := List.mem_mergeSort.mp h
  obtain ⟨n, hn, rfl⟩ := List.mem_map.mp this
  exact hn

/-- Shared structural facts about settle_decision, used by the
settlement-decision claim and the draft-simulator claim: at most 3
options; when nonempty, probabilities are positive and sum to 1;
options come from the open spots; a nonempty open set gives a nonempty
decision. -/
theorem settle_decision_spec (gs : GameState) :
    (settle_decision gs).length ≤ 3
    ∧ (settle_decision gs ≠ [] →
        ((settle_decision gs).map (fun r => r.2)).sum = 1
        ∧ ∀ p ∈ (settle_decision gs).map (fun r => r.2), 0 < p)
    ∧ (∀ r ∈ settle_decision gs, r.1.1 ∈ open_spots gs)
    ∧ (open_spots gs ≠ [] → settle_decision gs ≠ []) := by
  by_cases hE : (rank_all_spots gs).isEmpty
  · have hdec : settle_decision gs = [] := by
      simp only [settle_decision]
      rw [if_pos hE]
    have hopen : open_spots gs = [] := by
      rw [List.isEmpty_iff, ← List.length_eq_zero, rank_all_spots_length,
        List.length_eq_zero] at hE
      exact hE
    refine ⟨by simp [hdec], by simp [hdec], by simp [hdec], ?_⟩
    intro hne
    exact absurd hopen hne
  · have hre : rank_all_spots gs ≠ [] := by
      rwa [List.isEmpty_iff] at hE
    have hlen1 : 1 ≤ (rank_all_spots gs).length :=
      Nat.one_le_iff_ne_zero.mpr (fun h0 => hre (List.length_eq_zero.mp h0))
    set ranked := rank_all_spots gs with hranked
    set top := ranked.take (min 3 ranked.length) with htop
    set probs := softmax (top.map Prod.snd) K with hprobs
    have htoplen : top.length = min 3 ranked.length := by
      rw [htop, List.length_take]
      omega
    have htopne : top ≠ [] := by
      rw [← List.length_pos, htoplen]
      omega
    have hscoresne : top.map Prod.snd ≠ [] := by
      simp only [ne_eq, List.map_eq_nil_iff]
      exact htopne
    have hprobslen : probs.length = top.length := by
      rw [hprobs, softmax_length, List.length_map]
    have hdec : settle_decision gs =
        (top.zip probs).map
          (fun tp => ((tp.1.1, pick_road gs tp.1.1 ranked ((ranked.take 12).map Prod.fst)), tp.2)) := by
      simp only [settle_decision]
      rw [if_neg (by simp [hE])]
    have hmapsnd : ((top.zip probs).map
        (fun tp => ((tp.1.1, pick_road gs tp.1.1 ranked ((ranked.take 12).map Prod.fst)), tp.2))).map
          (fun r => r.2) = probs := by
      rw [List.map_map]
      have : ((fun r : (List Int × List Int) × ℝ => r.2) ∘
          (fun tp : (List Int × ℝ) × ℝ =>
            ((tp.1.1, pick_road gs tp.1.1 ranked ((ranked.take 12).map Prod.fst)), tp.2)))
          = Prod.snd := rfl
      rw [this]
      exact List.map_snd_zip top probs (le_of_eq hprobslen)
    refine ⟨?_, ?_, ?_, ?_⟩
    · rw [hdec, List.length_map, List.length_zip, hprobslen, htoplen]
      omega
    · intro _
      rw [hdec, hmapsnd, hprobs]
      exact ⟨softmax_sum_eq_one _ _ hscoresne, softmax_pos _ _ hscoresne⟩
    · intro r hr
      rw [hdec] at hr
      obtain ⟨tp, htp, rfl⟩ := List.mem_map.mp hr
      have := (List.of_mem_zip htp).1
      exact rank_all_spots_mem (List.mem_of_mem_take this)
    · intro _
      rw [hdec]
      intro hnil
      have hlen0 := congrArg List.length hnil
      rw [List.length_map, List.length_zip, hprobslen, htoplen, List.length_nil] at hlen0
      omega

/-- Claim C2 (amended).  settle_decision returns at most 3 options;
when at least one open spot exists the probabilities sum to 1; and
every returned settlement node is a valid node that is unoccupied and
shares exactly two tile ids with no occupied node.  (On a board with no
open spot the function returns the empty list, whose probability total
is 0, not 1 — see the counterexample.) -/
theorem settle_decision_contract (gs : GameState) :
    (settle_decision gs).length ≤ 3
    ∧ (open_spots gs ≠ [] → ((settle_decision gs).map (fun r => r.2)).sum = 1)
    ∧ (∀ r ∈ settle_decision gs,
        r.1.1 ∈ VALID_NODES
        ∧ dictGet gs.map.nodes r.1.1 = none
        ∧ ∀ occ ∈ gs.map.nodes.map Prod.fst, shares_two occ r.1.1 = false) := by
  obtain ⟨h1, h2, h3, h4⟩ := settle_decision_spec gs
  refine ⟨h1, ?_, ?_⟩
  · intro hopen
    exact (h2 (h4 hopen)).1
  · intro r hr
    exact open_spots_spec gs r.1.1 (h3 r hr)

/-- Fully occupied board: every valid node carries a settlement of
player 0, so no open spot remains. -/
def gs_full : GameState :=
  { meta := { t := 0, p_curr := 0, phase := "settle", dice := [], dev_rem := [] },
    map := { robber := 0, tiles := List.replicate 37 (2, 2),
             ports := [], nodes := VALID_NODES.map (fun n => (n, (0, 1))),
             edges := [] },
    players := [] }

/-- Counterexample to C2 as stated: on the fully occupied board
settle_decision returns the empty list, so its probabilities sum to 0,
which is not within 1e-6 of 1. -/
theorem settle_decision_full_board :
    settle_decision gs_full = []
    ∧ ((settle_decision gs_full).map (fun r => r.2)).sum = 0
    ∧ ¬ |((settle_decision gs_full).map (fun r => r.2)).sum - 1| ≤ 1 / 1000000 := by
  have hopen : open_spots gs_full = [] := by decide
  have hranked : rank_all_spots gs_full = [] := by
    rw [← List.length_eq_zero, rank_all_spots_length, hopen]
    rfl
  have hdec : settle_decision gs_full = [] := by
    simp only [settle_decision]
    rw [if_pos (by rw [hranked]; rfl)]
  refine ⟨hdec, by rw [hdec]; rfl, ?_⟩
  rw [hdec]
  simp only [List.map_nil, List.sum_nil, zero_sub, abs_neg, abs_one]
  norm_num

/-- Open board used as the C2 witness: standard tile array shape, no
settlements. -/
def gs_open : GameState :=
  { meta := { t := 0, p_curr := 0, phase := "settle", dice := [], dev_rem := [] },
    map := { robber := 0, tiles := List.replicate 37 (2, 2),
             ports := [], nodes := [], edges := [] },
    players := [] }

/-- Witness for C2 on a board with open spots. -/
theorem settle_decision_contract_witness :
    open_spots gs_open ≠ []
    ∧ (settle_decision gs_open).length ≤ 3
    ∧ ((settle_decision gs_open).map (fun r => r.2)).sum = 1 :=
  ⟨by decide, (settle_decision_contract gs_open).1,
    (settle_decision_contract gs_open).2.1 (by decide)⟩

/-! ## Robber prediction (robber_predict.py) -/

/-- robber_predict.RAW_POWER_PREFERENCE (0.3). -/
noncomputable def RAW_POWER_PREFERENCE : ℝ := 3/10

/-- robber_predict.ROBBER_K (0.2). -/
noncomputable def ROBBER_K : ℝ := 1/5

/-- robber_predict._count_settlements_on_tile: occupied nodes whose key
contains the tile id. -/
def count_settlements_on_tile (tile_id : Int)
    (nodes : List (List Int × (Int × Int))) : Nat :=
  (nodes.filter (fun nk => nk.1.contains tile_id)).length

/-- robber_predict._player_has_settlement_on_tile. -/
def player_has_settlement_on_tile (tile_id player_id : Int)
    (nodes : List (List Int × (Int × Int))) : Bool :=
  nodes.any (fun nk => nk.1.contains tile_id && nk.2.1 == player_id)

/-- Step 1 of predict_robber: for each land tile, the pair of dicts
tile_expected / tile_resource, modelled as one entry list
(tile id, expected production, resource id) where
expected = pips x adjacent settlement count. -/
def tile_expected_entries (gs : GameState) : List (Int × ℚ × Int) :=
  gs.map.tiles.enum.filterMap (fun p =>
    let tid : Int := p.1
    let res_id := p.2.1
    let number_token := p.2.2
    if 0 ≤ res_id ∧ res_id ≤ 4 ∧ 2 ≤ number_token then
      some (tid, number_to_pips number_token * (count_settlements_on_tile tid gs.map.nodes : ℚ), res_id)
    else none)

/-- Step 2 of predict_robber: total expected production per resource. -/
def robber_resource_prod (gs : GameState) : List ℚ :=
  (tile_expected_entries gs).foldl
    (fun acc e => listAddAt acc e.2.2.toNat e.2.1)
    (List.replicate 5 0)

/-- robber_predict.predict_robber.  Steps 1-2 are pure; step 3 invokes
_compute_relative_strengths with the keyword argument dampening, which
the callee does not accept, so the call raises TypeError on every
input.  Steps 4-6 (balanced preferences, tile scores, per-player top-3
softmax with padding) are modelled in the success branch, which no
input reaches. -/
noncomputable def predict_robber (gs : GameState) :
    Except String (List (List (Int × ℝ))) :=
  let entries := tile_expected_entries gs
  let resource_prod := robber_resource_prod gs
  match call_compute_relative_strengths (resource_prod.map (fun q => (q : ℝ)))
      ["dampening"] with
  | .error e => .error e
  | .ok relative_strengths =>
    let balanced_preferences := relative_strengths.map (fun s => s + RAW_POWER_PREFERENCE)
    let tile_scores : List (Int × ℝ) :=
      entries.map (fun e => (e.1, (e.2.1 : ℝ) * balanced_preferences.getD e.2.2.toNat 0))
    .ok (gs.players.map (fun player =>
      let eligible := tile_scores.filter
        (fun ts => ! player_has_settlement_on_tile ts.1 player.id gs.map.nodes)
      let sorted := eligible.mergeSort (fun a b => decide (b.2 ≤ a.2))
      let top3 := sorted.take 3
      if top3.isEmpty then []
      else
        let padded := top3 ++ List.replicate (3 - top3.length) (top3.getLastD (0, 0))
        let probs := softmax (padded.map Prod.snd) ROBBER_K
        (padded.zip probs).map (fun tp => (tp.1.1, tp.2))))

/-- Claim C1 (code bug).  predict_robber never returns the per-player
distributions the claim describes: on every input it raises TypeError,
because it calls _compute_relative_strengths with the keyword argument
dampening while that function (settle_eval_simple.py lines 99-101)
accepts only the positional parameter total_prod. -/
theorem predict_robber_raises (gs : GameState) :
    predict_robber gs = .error dampening_type_error := rfl

/-! ## Initial board evaluation (init_eval.py) -/

/-- init_eval.WB_BONUS. -/
noncomputable def WB_BONUS : ℝ := 2

/-- init_eval.OWS_BONUS. -/
noncomputable def OWS_BONUS : ℝ := 2

/-- init_eval.EXTREME_BONUS (1.5). -/
noncomputable def EXTREME_BONUS : ℝ := 3/2

/-- init_eval.PROD_PAIR_BONUS (1.3). -/
def PROD_PAIR_BONUS : ℚ := 13/10

/-- init_eval.TOTAL_MULTIPLIER (0.5). -/
noncomputable def TOTAL_MULTIPLIER : ℝ := 1/2

/-- init_eval.TOTAL_VALUED_MULTIPLIER (0.8). -/
noncomputable def TOTAL_VALUED_MULTIPLIER : ℝ := 4/5

/-- init_eval.PORTABILITY_BONUS. -/
noncomputable def PORTABILITY_BONUS : ℝ := 2

/-- init_eval.BEST_ROAD_BONUS (1.5). -/
noncomputable def BEST_ROAD_BONUS : ℝ := 3/2

/-- init_eval.BEST_CITY_BONUS (1.5). -/
noncomputable def BEST_CITY_BONUS : ℝ := 3/2

/-- init_eval.NO_WHEAT (1.0), the no-wheat penalty unit. -/
def NO_WHEAT : ℚ := 1

/-- init_eval.TARGET_PENALTY (1.5). -/
noncomputable def TARGET_PENALTY : ℝ := 3/2

/-- init_eval.INIT_EVAL_DAMPENING (0.7): the value the failing keyword
call intends to pass. -/
noncomputable def INIT_EVAL_DAMPENING : ℝ := 7/10

/-- init_eval.PORT_REACH_MIN. -/
def PORT_REACH_MIN : Nat := 2

/-- init_eval.PORT_REACH_MAX. -/
def PORT_REACH_MAX : Nat := 3

/-- init_eval.PlayerEval (the dataclass), with the breakdown dict as an
association list. -/
structure PlayerEval where
  player_id : Int
  total_score : ℝ
  raw_prod : List ℚ
  base_prod : List ℝ
  paired_prod : List ℝ
  strategy_index : ℝ
  prod_pairs : List (Int × Int)
  has_port_access : Bool
  target : Int := -1
  breakdown : List (String × ℝ) := []

/-- Python min() over floats ([] made inert; never reached on []). -/
noncomputable def pymin : List ℝ → ℝ
  | [] => 0
  | h :: t => t.foldl min h

/-- Round-half-to-even at integer precision, as Python round() does. -/
noncomputable def round_half_even (y : ℝ) : Int :=
  if Int.fract y = 1/2 then (if Even ⌊y⌋ then ⌊y⌋ else ⌊y⌋ + 1) else round y

/-- Python round(x, 4). -/
noncomputable def py_round4 (x : ℝ) : ℝ := (round_half_even (x * 10000) : ℝ) / 10000

/-- Rational round-half-to-even, for the exact-rational raw-production
vectors. -/
def round_half_even_q (y : ℚ) : Int :=
  if Int.fract y = 1/2 then (if Even ⌊y⌋ then ⌊y⌋ else ⌊y⌋ + 1) else round y

/-- Python round(x, 4) on the rational model. -/
def py_round4_q (x : ℚ) : ℚ := (round_half_even_q (x * 10000) : ℚ) / 10000

/-- The keys of a player's occupied nodes, in dict order
(`[nk for nk, (pid, _) in gs.map.nodes.items() if pid == player_id]`). -/
def player_nodes (gs : GameState) (pid : Int) : List (List Int) :=
  (gs.map.nodes.filter (fun nk => nk.2.1 == pid)).map Prod.fst

/-- The (tile id, resource, number) entries of the land tiles touched
by a player's settlements, in node-dict iteration order, with
repetitions (one per settlement per tile).  This is the data
_find_prod_pairs scans. -/
def player_land_tile_entries (gs : GameState) (pid : Int) : List (Int × Int × Int) :=
  gs.map.nodes.flatMap (fun nk =>
    if nk.2.1 = pid then
      nk.1.filterMap (fun tid =>
        let t := tileAt gs.map.tiles tid
        if 0 ≤ t.1 ∧ t.1 ≤ 4 ∧ 2 ≤ t.2 then some (tid, t.1, t.2) else none)
    else [])

/-- Append-if-new, modelling insertion-ordered set/dict key building. -/
def insert_unique {α : Type} [DecidableEq α] (l : List α) (x : α) : List α :=
  if x ∈ l then l else l ++ [x]

/-- init_eval._find_prod_pairs: complement pairs (wood+brick,
grain+ore) the player touches on a shared dice number, and the tile ids
eligible for the production-pair bonus (both as sets up to
membership). -/
def find_prod_pairs (gs : GameState) (pid : Int) :
    List (Int × Int) × List Int :=
  let entries := player_land_tile_entries gs pid
  let nums := entries.foldl (fun acc e => insert_unique acc e.2.2) []
  let pairs : List (Int × Int) := [(0, 1), (3, 4)]
  let pairs_found := pairs.flatMap (fun ab =>
    nums.filterMap (fun num =>
      if (entries.any (fun e => e.2.1 == ab.1 && e.2.2 == num))
          && (entries.any (fun e => e.2.1 == ab.2 && e.2.2 == num)) then some ab
      else none))
  let pair_tile_ids := pairs.flatMap (fun ab =>
    nums.flatMap (fun num =>
      if (entries.any (fun e => e.2.1 == ab.1 && e.2.2 == num))
          && (entries.any (fun e => e.2.1 == ab.2 && e.2.2 == num)) then
        entries.filterMap (fun e =>
          if (e.2.1 == ab.1 || e.2.1 == ab.2) && e.2.2 == num then some e.1 else none)
      else []))
  (pairs_found, pair_tile_ids)

/-- init_eval._compute_player_production, generic over the numeric
field so the exact-rational raw case and the real post-robber case
share one definition (the source function is likewise reused for
both): each settlement or city contributes
tile production x building multiplier x pair multiplier. -/
def compute_player_production {R : Type} [DivisionRing R] (gs : GameState)
    (player_id : Int) (tile_actual_prod : List (Int × R))
    (pair_tile_ids : Option (List Int)) : List R :=
  gs.map.nodes.foldl
    (fun prod nk =>
      if nk.2.1 = player_id then
        let building_mult : R := if nk.2.2 = 2 then 2 else 1
        nk.1.foldl
          (fun prod2 tid =>
            let t := tileAt gs.map.tiles tid
            if 0 ≤ t.1 ∧ t.1 ≤ 4 ∧ 2 ≤ t.2 then
              let base := (dictGet tile_actual_prod tid).getD 0
              let pair_mult : R :=
                match pair_tile_ids with
                | some ptids =>
                  if ptids ≠ [] ∧ tid ∈ ptids then ((PROD_PAIR_BONUS : ℚ) : R) else 1
                | none => 1
              listAddAt prod2 t.1.toNat (base * building_mult * pair_mult)
            else prod2)
          prod
      else prod)
    (List.replicate 5 0)

/-- The pre-robber tile_raw_prod dict of evaluate_init_board: pips per
land tile. -/
def tile_raw_prod (gs : GameState) : List (Int × ℚ) :=
  gs.map.tiles.enum.filterMap (fun p =>
    if 0 ≤ p.2.1 ∧ p.2.1 ≤ 4 ∧ 2 ≤ p.2.2 then
      some ((p.1 : Int), number_to_pips p.2.2)
    else none)

/-- The player_raw_prods[i][3] lookup of the no-wheat block: the
player's pre-robber grain production (grain = resource 3). -/
def player_raw_wheat (gs : GameState) (pid : Int) : ℚ :=
  (compute_player_production gs pid (tile_raw_prod gs) none).getD 3 0

/-- init_eval._strategy_index: 0 pure wood/brick, 1 pure
ore/wheat/sheep, 0.5 on zero total. -/
noncomputable def strategy_index (paired_prod : List ℝ) : ℝ :=
  let wb := min (paired_prod.getD 0 0) (paired_prod.getD 1 0)
  let ows := min (paired_prod.getD 4 0) (min (paired_prod.getD 3 0) (paired_prod.getD 2 0))
  if wb + ows ≤ 0 then 1/2 else ows / (wb + ows)

/-- init_eval._check_portability: an open port within 2-3 road hops
that is 3:1 or matches a resource the player produces at least 5 pips
of. -/
noncomputable def check_portability (gs : GameState) (player_id : Int)
    (player_base_prod : List ℝ) : Bool :=
  let open_ports := (gs.map.ports.filter (fun p => ! dictMem gs.map.nodes p.1)).map Prod.fst
  (player_nodes gs player_id).any (fun settle =>
    let reachable := bfs_from_node gs settle PORT_REACH_MAX
    open_ports.any (fun port_node =>
      match dictGet reachable port_node with
      | none => false
      | some de =>
        if de.1 < PORT_REACH_MIN ∨ PORT_REACH_MAX < de.1 then false
        else
          match dictGet gs.map.ports port_node with
          | some port_type =>
            if port_type = 5 then true
            else if 0 ≤ port_type ∧ port_type ≤ 4 then
              decide ((5 : ℝ) ≤ player_base_prod.getD port_type.toNat 0)
            else false
          | none => false))

/-- The has_major_port test of the no-wheat block (init_eval.py lines
461-466): the player already sits on a 3:1 port node. -/
def has_major_port (gs : GameState) (pid : Int) : Bool :=
  (player_nodes gs pid).any (fun nk => dictGet gs.map.ports nk == some 5)

/-- The open 3:1 port nodes of the no-wheat block (lines 473-477). -/
def open_ports_31 (gs : GameState) : List (List Int) :=
  (gs.map.ports.filter (fun p => p.2 == 5 && ! dictMem gs.map.nodes p.1)).map Prod.fst

/-- The has_incoming_major loop of the no-wheat block (lines 478-493):
some settlement of the player reaches some open 3:1 port node at BFS
distance 2 to 3. -/
def has_incoming_major (gs : GameState) (pid : Int) : Bool :=
  (player_nodes gs pid).any (fun settle =>
    (open_ports_31 gs).any (fun pn =>
      match dictGet (bfs_from_node gs settle PORT_REACH_MAX) pn with
      | some de => decide (PORT_REACH_MIN ≤ de.1) && decide (de.1 ≤ PORT_REACH_MAX)
      | none => false))

/-- The no-wheat penalty block of evaluate_init_board (init_eval.py
lines 457-500), as the amount subtracted from the player's score: when
pre-robber grain production is at most 2 pips, nothing if the player
sits on a 3:1 port, 1 x NO_WHEAT if an open 3:1 port is 2-3 road hops
away, 3 x NO_WHEAT otherwise. -/
def no_wheat_penalty (gs : GameState) (pid : Int) : ℚ :=
  if player_raw_wheat gs pid ≤ 2 then
    if has_major_port gs pid then 0
    else if has_incoming_major gs pid then 1 * NO_WHEAT
    else 3 * NO_WHEAT
  else 0

/-- Step 2 of evaluate_init_board: board-wide rob attractiveness per
tile, the per-player probabilities divided by 4 and summed. -/
noncomputable def tile_rob_attr (rob_predictions : List (List (Int × ℝ))) :
    List (Int × ℝ) :=
  rob_predictions.foldl
    (fun acc preds =>
      preds.foldl
        (fun acc2 tp => dictSet acc2 tp.1 ((dictGet acc2 tp.1).getD 0 + tp.2 / 4))
        acc)
    []

/-- Step 3 of evaluate_init_board: post-robber tile production
(1 - rob attractiveness) x pips per land tile. -/
noncomputable def tile_actual_prod_dict (gs : GameState)
    (rob_attr : List (Int × ℝ)) : List (Int × ℝ) :=
  gs.map.tiles.enum.filterMap (fun p =>
    if 0 ≤ p.2.1 ∧ p.2.1 ≤ 4 ∧ 2 ≤ p.2.2 then
      some ((p.1 : Int),
        (1 - (dictGet rob_attr (p.1 : Int)).getD 0) * (number_to_pips p.2.2 : ℝ))
    else none)

/-- Python max(l, key=...)[0] pattern: first entry with maximal second
component (strict improvement keeps the first winner, as max() does). -/
noncomputable def argmax_first {α : Type} (l : List (α × ℝ)) : Option (α × ℝ) :=
  l.foldl
    (fun acc x =>
      match acc with
      | none => some x
      | some b => if b.2 < x.2 then some x else acc)
    none

open Classical

/-- The per-player strategy indices of evaluate_init_board. -/
noncomputable def init_eval_strat_indices (player_paired_prods : List (List ℝ)) : List ℝ :=
  player_paired_prods.map strategy_index

/-- The wood+brick road potential per player. -/
noncomputable def init_eval_road_scores (player_paired_prods : List (List ℝ)) : List ℝ :=
  player_paired_prods.map (fun pp => pp.getD 0 0 + pp.getD 1 0)

/-- The ore+grain city potential per player. -/
noncomputable def init_eval_city_scores (player_paired_prods : List (List ℝ)) : List ℝ :=
  player_paired_prods.map (fun pp => pp.getD 4 0 + pp.getD 3 0)

/-- The strength-weighted paired production of one player. -/
noncomputable def init_eval_valued (paired rel_strengths : List ℝ) : ℝ :=
  ((paired.zip rel_strengths).map (fun pr => pr.1 * pr.2)).sum

/-- The score components summed for player i of evaluate_init_board:
production totals, strategy-alignment bonuses, road/city advantage,
portability, minus the no-wheat penalty. -/
noncomputable def init_eval_player_score (gs : GameState)
    (player_paired_prods : List (List ℝ)) (rel_strengths : List ℝ)
    (i : Nat) (player : Player) (base paired : List ℝ) : ℝ :=
  let strat_indices := init_eval_strat_indices player_paired_prods
  let extremes := strat_indices.map (fun s => |s - 1/2|)
  let road_scores := init_eval_road_scores player_paired_prods
  let city_scores := init_eval_city_scores player_paired_prods
  let s1 := paired.sum * TOTAL_MULTIPLIER
  let s2 := init_eval_valued paired rel_strengths * TOTAL_VALUED_MULTIPLIER
  let swb : ℝ := if strat_indices.getD i 0 = pymin strat_indices then WB_BONUS else 0
  let sows : ℝ := if strat_indices.getD i 0 = pymax strat_indices then OWS_BONUS else 0
  let sext : ℝ := if extremes.getD i 0 = pymax extremes then EXTREME_BONUS else 0
  let sroad : ℝ :=
    if 0 < pymax road_scores ∧ road_scores.getD i 0 = pymax road_scores then
      BEST_ROAD_BONUS else 0
  let scity : ℝ :=
    if 0 < pymax city_scores ∧ city_scores.getD i 0 = pymax city_scores then
      BEST_CITY_BONUS else 0
  let sport : ℝ := if check_portability gs player.id base then PORTABILITY_BONUS else 0
  let penalty : ℝ := ((no_wheat_penalty gs player.id : ℚ) : ℝ)
  s1 + s2 + swb + sows + sext + sroad + scity + sport - penalty

/-- The PlayerEval record built for player i of evaluate_init_board.
The breakdown dict keeps its unconditional entries only (it is
informational output read by no claim). -/
noncomputable def init_eval_player_eval (gs : GameState)
    (player_raw_prods : List (List ℚ))
    (player_base_prods player_paired_prods : List (List ℝ))
    (player_pairs_list : List (List (Int × Int)))
    (wb_ows_power : ℝ) (rel_strengths : List ℝ)
    (i : Nat) (player : Player) : PlayerEval :=
  let paired := player_paired_prods.getD i []
  let base := player_base_prods.getD i []
  let strat_indices := init_eval_strat_indices player_paired_prods
  let score := init_eval_player_score gs player_paired_prods rel_strengths i player base paired
  { player_id := player.id
    total_score := py_round4 score
    raw_prod := (player_raw_prods.getD i []).map py_round4_q
    base_prod := base.map py_round4
    paired_prod := paired.map py_round4
    strategy_index := py_round4 (strat_indices.getD i 0)
    prod_pairs := player_pairs_list.getD i []
    has_port_access := check_portability gs player.id base
    target := -1
    breakdown := [("total_prod", py_round4 paired.sum),
      ("total_prod_score", py_round4 (paired.sum * TOTAL_MULTIPLIER)),
      ("valued_prod", py_round4 (init_eval_valued paired rel_strengths)),
      ("valued_prod_score", py_round4 (init_eval_valued paired rel_strengths * TOTAL_VALUED_MULTIPLIER)),
      ("wb_ows_power", py_round4 wb_ows_power),
      ("strategy_index", py_round4 (strat_indices.getD i 0)),
      ("total_pips", py_round4 base.sum)] }

/-- The rival player i targets: the strongest same-strategy player
scoring above them, else the strongest other player (first maximum, as
Python max). -/
noncomputable def init_eval_target (gs : GameState) (strat_indices pre : List ℝ)
    (i : Nat) : Int :=
  let num_players := gs.players.length
  let my_score := pre.getD i 0
  let is_wb := strat_indices.getD i 0 < 1/2
  let same := (List.range num_players).filterMap (fun j =>
    if j ≠ i ∧ ((strat_indices.getD j 0 < (1/2 : ℝ)) ↔ is_wb) ∧ my_score < pre.getD j 0
    then some (j, pre.getD j 0) else none)
  let others := (List.range num_players).filterMap (fun j =>
    if j ≠ i then some (j, pre.getD j 0) else none)
  let target_idx :=
    match argmax_first same with
    | some bj => bj.1
    | none => match argmax_first others with | some bj => bj.1 | none => 0
  (gs.players.getD target_idx default).id

/-- First player index carrying a given player id (the `next(...)`
lookup of the targeting pass). -/
def init_eval_target_index (gs : GameState) (pid : Int) : Nat :=
  match gs.players.enum.find? (fun jp => jp.2.id == pid) with
  | some jp => jp.1
  | none => 0

/-- Record each target of each player and subtract the stacked
TARGET_PENALTY from every targeted player. -/
noncomputable def init_eval_apply_targets (gs : GameState) (targets : List Int)
    (results : List PlayerEval) : List PlayerEval :=
  results.enum.map (fun ie =>
    let j := ie.1
    let ev := { ie.2 with target := targets.getD j ie.2.target }
    let c := (targets.filter (fun t => init_eval_target_index gs t == j)).length
    if 0 < c then
      { ev with total_score := py_round4 (ev.total_score - TARGET_PENALTY * (c : ℝ)) }
    else ev)

/-- Normalise the final scores to a 4-tuple summing to 1, with a
uniform fallback on a non-positive total, zero-padded then truncated
to exactly 4 entries. -/
noncomputable def init_eval_normalise (num_players : Nat) (raw : List ℝ) :
    ℝ × ℝ × ℝ × ℝ :=
  let total := raw.sum
  let normed :=
    if 0 < total then raw.map (fun r => r / total)
    else raw.map (fun _ => 1 / (num_players : ℝ))
  let padded := normed ++ List.replicate (4 - normed.length) 0
  (padded.getD 0 0, padded.getD 1 0, padded.getD 2 0, padded.getD 3 0)

/-- Per-player scoring, targeting and normalisation of
evaluate_init_board (init_eval.py lines 387-575).  Every execution of
the source raises before reaching this code (see
evaluate_init_board_raises), so no claim exercises it; it is modelled
so the embedding of evaluate_init_board is complete. -/
noncomputable def init_eval_scores (gs : GameState)
    (player_raw_prods : List (List ℚ))
    (player_base_prods player_paired_prods : List (List ℝ))
    (player_pairs_list : List (List (Int × Int)))
    (wb_ows_power : ℝ) (rel_strengths : List ℝ) :
    (ℝ × ℝ × ℝ × ℝ) × List PlayerEval :=
  let results := gs.players.enum.map (fun ip =>
    init_eval_player_eval gs player_raw_prods player_base_prods player_paired_prods
      player_pairs_list wb_ows_power rel_strengths ip.1 ip.2)
  let pre := results.map (fun ev => ev.total_score)
  let targets := (List.range gs.players.length).map
    (init_eval_target gs (init_eval_strat_indices player_paired_prods) pre)
  let results2 := init_eval_apply_targets gs targets results
  (init_eval_normalise gs.players.length (results2.map (fun ev => ev.total_score)), results2)

/-- Steps 2-7 of evaluate_init_board, entered after predict_robber
returns.  Step 7 invokes _compute_relative_strengths with the keyword
argument dampening (init_eval.py lines 383-384), which the callee does
not accept, so this too raises on every input that reaches it. -/
noncomputable def init_eval_after_robber (gs : GameState)
    (rob_predictions : List (List (Int × ℝ))) :
    Except String ((ℝ × ℝ × ℝ × ℝ) × List PlayerEval) :=
  let rob_attr := tile_rob_attr rob_predictions
  let tile_actual_prod := tile_actual_prod_dict gs rob_attr
  let player_raw_prods :=
    gs.players.map (fun p => compute_player_production gs p.id (tile_raw_prod gs) none)
  let player_base_prods :=
    gs.players.map (fun p =>
      compute_player_production gs p.id tile_actual_prod (none : Option (List Int)))
  let pairs_list := gs.players.map (fun p => (find_prod_pairs gs p.id).1)
  let player_paired_prods := gs.players.map (fun p =>
    let ptids := (find_prod_pairs gs p.id).2
    compute_player_production gs p.id tile_actual_prod
      (if ptids ≠ [] then some ptids else none))
  let total_board_prod := (List.range 5).map (fun r =>
    ((List.range gs.players.length).map
      (fun p => (player_base_prods.getD p []).getD r 0)).sum)
  let wb_min := min (total_board_prod.getD 0 0) (total_board_prod.getD 1 0)
  let ows_min := min (total_board_prod.getD 4 0)
    (min (total_board_prod.getD 3 0) (total_board_prod.getD 2 0))
  let wb_ows_power := ((wb_min + 2) / (ows_min + 2)) * (11/10)
  match call_compute_relative_strengths total_board_prod ["dampening"] with
  | .error e => .error e
  | .ok rel_strengths =>
    .ok (init_eval_scores gs player_raw_prods player_base_prods player_paired_prods
      pairs_list wb_ows_power rel_strengths)

/-- init_eval.evaluate_init_board: uniform early return on zero
players, then predict_robber, then the evaluation body. -/
noncomputable def evaluate_init_board (gs : GameState) :
    Except String ((ℝ × ℝ × ℝ × ℝ) × List PlayerEval) :=
  if gs.players.length = 0 then .ok ((1/4, 1/4, 1/4, 1/4), [])
  else
    match predict_robber gs with
    | .error e => .error e
    | .ok rob_predictions => init_eval_after_robber gs rob_predictions

/-- Shared fact: predict_robber raises on every input (the dampening
keyword is not accepted by _compute_relative_strengths). -/
theorem predict_robber_eq_error (gs : GameState) :
    predict_robber gs = .error dampening_type_error := rfl

/-- Claim C3 (code bug).  For every GameState with at least one player,
evaluate_init_board never returns the normalised 4-tuple the claim
describes: it raises TypeError, because its step 1 calls
predict_robber, which calls _compute_relative_strengths with the
unaccepted keyword argument dampening (and its own step 7 repeats the
same unaccepted call). -/
theorem evaluate_init_board_raises (gs : GameState) (h : gs.players ≠ []) :
    evaluate_init_board gs = .error dampening_type_error := by
  rw [evaluate_init_board, if_neg (by simpa [List.length_eq_zero] using h),
    predict_robber_eq_error gs]

/-- A single-player state used as the C3 witness. -/
def player0 : Player :=
  { id := 0, public := [0, 0, 0, 0], res_k := [0, 0, 0, 0, 0], res_u := [], devs := [] }

/-- gs_open with one player. -/
def gs_one_player : GameState := { gs_open with players := [player0] }

/-- Witness for C3. -/
theorem evaluate_init_board_raises_witness :
    gs_one_player.players ≠ []
    ∧ evaluate_init_board gs_one_player = .error dampening_type_error :=
  ⟨by decide, evaluate_init_board_raises gs_one_player (by decide)⟩

/-! ## The no-wheat penalty clause (claim C7) -/

/-- Specification-side reading of the amended no-wheat clause, written
from the claim wording with the reduction corrected from one half to
one third: with pre-robber grain production at most 2 pips, the penalty
is removed entirely when the player already occupies a 3:1 port node,
is one third of the otherwise-full penalty when an open 3:1 port is
reachable within 2-3 road hops by BFS, and is the full 3 x NO_WHEAT
otherwise. -/
noncomputable def spec_no_wheat_penalty (gs : GameState) (pid : Int) : ℚ :=
  let full := 3 * NO_WHEAT
  if player_raw_wheat gs pid ≤ 2 then
    if ∃ nk ∈ player_nodes gs pid, dictGet gs.map.ports nk = some 5 then 0
    else if ∃ settle ∈ player_nodes gs pid, ∃ pn ∈ open_ports_31 gs, ∃ d fe,
        dictGet (bfs_from_node gs settle PORT_REACH_MAX) pn = some (d, fe)
        ∧ PORT_REACH_MIN ≤ d ∧ d ≤ PORT_REACH_MAX then full / 3
    else full
  else 0

theorem has_major_port_iff (gs : GameState) (pid : Int) :
    has_major_port gs pid = true ↔
      ∃ nk ∈ player_nodes gs pid, dictGet gs.map.ports nk = some 5 := by
  simp [has_major_port, List.any_eq_true]

theorem has_incoming_major_iff (gs : GameState) (pid : Int) :
    has_incoming_major gs pid = true ↔
      ∃ settle ∈ player_nodes gs pid, ∃ pn ∈ open_ports_31 gs, ∃ d fe,
        dictGet (bfs_from_node gs settle PORT_REACH_MAX) pn = some (d, fe)
        ∧ PORT_REACH_MIN ≤ d ∧ d ≤ PORT_REACH_MAX := by
  rw [has_incoming_major, List.any_eq_true]
  constructor
  · rintro ⟨settle, hs, hinner⟩
    rw [List.any_eq_true] at hinner
    obtain ⟨pn, hpn, hcase⟩ := hinner
    refine ⟨settle, hs, pn, hpn, ?_⟩
    cases hd : dictGet (bfs_from_node gs settle PORT_REACH_MAX) pn with
    | none => rw [hd] at hcase; cases hcase
    | some de =>
      rw [hd] at hcase
      simp only [Bool.and_eq_true, decide_eq_true_eq] at hcase
      exact ⟨de.1, de.2, by simp [hd], hcase.1, hcase.2⟩
  · rintro ⟨settle, hs, pn, hpn, d, fe, hd, h1, h2⟩
    refine ⟨settle, hs, ?_⟩
    rw [List.any_eq_true]
    refine ⟨pn, hpn, ?_⟩
    rw [hd]
    simp [h1, h2]

/-- Claim C7 (amended).  The no-wheat penalty block equals the
spec-side clause with the reduction read as one third (the code uses
1 x NO_WHEAT against a full penalty of 3 x NO_WHEAT), and the reduced
penalty is exactly one third of the full one. -/
theorem no_wheat_penalty_spec (gs : GameState) (pid : Int) :
    no_wheat_penalty gs pid = spec_no_wheat_penalty gs pid
    ∧ (1 : ℚ) * NO_WHEAT = (3 * NO_WHEAT) / 3 := by
  constructor
  · simp only [no_wheat_penalty, spec_no_wheat_penalty]
    by_cases hw : player_raw_wheat gs pid ≤ 2
    · rw [if_pos hw, if_pos hw]
      by_cases hm : ∃ nk ∈ player_nodes gs pid, dictGet gs.map.ports nk = some 5
      · rw [if_pos ((has_major_port_iff gs pid).mpr hm), if_pos hm]
      · rw [if_neg (fun hb => hm ((has_major_port_iff gs pid).mp hb)), if_neg hm]
        by_cases hi : ∃ settle ∈ player_nodes gs pid, ∃ pn ∈ open_ports_31 gs, ∃ d fe,
            dictGet (bfs_from_node gs settle PORT_REACH_MAX) pn = some (d, fe)
            ∧ PORT_REACH_MIN ≤ d ∧ d ≤ PORT_REACH_MAX
        · rw [if_pos ((has_incoming_major_iff gs pid).mpr hi), if_pos hi]
          norm_num [NO_WHEAT]
        · rw [if_neg (fun hb => hi ((has_incoming_major_iff gs pid).mp hb)), if_neg hi]
    · rw [if_neg hw, if_neg hw]
  · norm_num [NO_WHEAT]

/-- Board for the C7 counterexample: player 0 settled at node [5,6,11]
with zero grain production; an open 3:1 port sits on node [0,1,5], two
road hops away. -/
def gsA : GameState :=
  { meta := { t := 0, p_curr := 0, phase := "settle", dice := [], dev_rem := [] },
    map := { robber := 36, tiles := List.replicate 37 (2, 2),
             ports := [([0, 1, 5], 5)],
             nodes := [([5, 6, 11], (0, 1))], edges := [] },
    players := [] }

/-- gsA without the port: the full penalty applies. -/
def gsB : GameState :=
  { meta := { t := 0, p_curr := 0, phase := "settle", dice := [], dev_rem := [] },
    map := { robber := 36, tiles := List.replicate 37 (2, 2),
             ports := [],
             nodes := [([5, 6, 11], (0, 1))], edges := [] },
    players := [] }

/-- Counterexample to C7 as stated: with the reachable open 3:1 port
the penalty is 1, the otherwise-full penalty is 3 (see gsB), and 1 is
not half of 3. -/
theorem no_wheat_penalty_not_halved :
    player_raw_wheat gsA 0 ≤ 2
    ∧ has_major_port gsA 0 = false
    ∧ has_incoming_major gsA 0 = true
    ∧ no_wheat_penalty gsA 0 = 1
    ∧ has_incoming_major gsB 0 = false
    ∧ no_wheat_penalty gsB 0 = 3
    ∧ (1 : ℚ) ≠ 3 / 2 := by
  have hwA : player_raw_wheat gsA 0 ≤ 2 := by decide
  have hmA : has_major_port gsA 0 = false := by decide
  have hiA : has_incoming_major gsA 0 = true := by decide
  have hwB : player_raw_wheat gsB 0 ≤ 2 := by decide
  have hmB : has_major_port gsB 0 = false := by decide
  have hiB : has_incoming_major gsB 0 = false := by decide
  refine ⟨hwA, hmA, hiA, ?_, hiB, ?_, by norm_num⟩
  · rw [no_wheat_penalty, if_pos hwA, if_neg (by simp [hmA]), if_pos hiA]
    norm_num [NO_WHEAT]
  · rw [no_wheat_penalty, if_pos hwB, if_neg (by simp [hmB]), if_neg (by simp [hiB])]
    norm_num [NO_WHEAT]

/-! ## Draft simulation (settle_options.py, settle_sim.py) -/

/-- settle_options.extend_option: the extensibility hook, currently
always empty. -/
def extend_option (_gs : GameState) : List (List Int × ℝ) := []

/-- settle_options.top_settle_spots: merge the ranked open spots with
the extension hook, dedup by node keeping the higher score (the first
insertion takes max against -inf, i.e. the score itself), sort
descending by score (stable, like sorted with reverse=True), take x. -/
noncomputable def top_settle_spots (gs : GameState) (x : Nat := 4) :
    List (List Int × ℝ) :=
  let scored := rank_all_spots gs
  let extras := extend_option gs
  let best := (scored ++ extras).foldl
    (fun acc ns =>
      match dictGet acc ns.1 with
      | some old => dictSet acc ns.1 (max old ns.2)
      | none => dictSet acc ns.1 ns.2)
    ([] : List (List Int × ℝ))
  (best.mergeSort (fun a b => decide (b.2 ≤ a.2))).take x

/-- settle_sim.MAX_WINDOW. -/
def MAX_WINDOW : Nat := 20

/-- settle_sim.SETTLE_ORDER: the 4-player snake draft. -/
def SETTLE_ORDER : List Int := [0, 1, 2, 3, 3, 2, 1, 0]

/-- settle_sim._apply_placement as a value: the deep copy of the state
with the settlement recorded as [player_id, 1] in nodes and the road
as player_id in edges.  (The copy/mutation discipline itself is studied
in the store model below.) -/
def apply_placement (gs : GameState) (settle_spot road_spot : List Int)
    (player_id : Int) : GameState :=
  { gs with map := { gs.map with
      nodes := dictSet gs.map.nodes settle_spot (player_id, 1),
      edges := dictSet gs.map.edges road_spot player_id } }

/-- settle_sim._prune_and_normalize, generic in what a branch carries:
within the window the list is returned unchanged; otherwise sort
descending by probability, keep the top max_window and rescale them to
sum to 1 when the kept total is positive. -/
noncomputable def prune_and_normalize {α : Type} (cases : List (α × ℝ))
    (max_window : Nat) : List (α × ℝ) :=
  if cases.length ≤ max_window then cases
  else
    let kept := (cases.mergeSort (fun a b => decide (b.2 ≤ a.2))).take max_window
    let total := (kept.map Prod.snd).sum
    if 0 < total then kept.map (fun c => (c.1, c.2 / total)) else kept

/-- The body of the branch loop of simulate_settle for one live branch:
set the acting player on a deep copy, ask settle_decision, carry the
branch forward unchanged when no options exist, else fan out one branch
per option with multiplied probability. -/
noncomputable def branch_case (acting : Int) (case_ : GameState × ℝ) :
    List (GameState × ℝ) :=
  let sim_gs := { case_.1 with meta := { case_.1.meta with p_curr := acting } }
  let decisions := settle_decision sim_gs
  if decisions.isEmpty then [case_]
  else decisions.map
    (fun dr => (apply_placement sim_gs dr.1.1 dr.1.2 acting, case_.2 * dr.2))

/-- One simulated placement slot before pruning: the new_cases list. -/
noncomputable def slot_fanout (acting : Int) (cases : List (GameState × ℝ)) :
    List (GameState × ℝ) :=
  cases.flatMap (branch_case acting)

/-- The acting players of the remaining slots
(`SETTLE_ORDER[current_placement + step]` for step in range(1, remaining);
the defensive break at placement_idx >= 8 never fires because
placement_idx stays at most 7, so the getD default is unreachable). -/
def slot_actors (current_placement : Nat) (remaining : Int) : List Int :=
  (List.range (remaining.toNat - 1)).map
    (fun step => SETTLE_ORDER.getD (current_placement + 1 + step) 0)

/-- The slot loop of simulate_settle: fan out then prune, once per
remaining slot. -/
noncomputable def run_slots (acts : List Int) (max_window : Nat)
    (cases : List (GameState × ℝ)) : List (GameState × ℝ) :=
  acts.foldl (fun cs acting => prune_and_normalize (slot_fanout acting cs) max_window) cases

/-- settle_sim.simulate_settle: for each of the player's candidate
options, apply it with probability 1 and simulate the remaining slots
of the snake draft. -/
noncomputable def simulate_settle (gs : GameState) (x : Nat := 6)
    (max_window : Nat := MAX_WINDOW) :
    List ((List Int × List Int) × List (GameState × ℝ)) :=
  let current_placement := gs.map.nodes.length
  let remaining : Int := (SETTLE_ORDER.length : Int) - current_placement
  if remaining ≤ 0 then []
  else
    let my_options := top_settle_spots gs x
    if my_options.isEmpty then []
    else
      let ranked := rank_all_spots gs
      let top12_keys := (ranked.take 12).map Prod.fst
      let acts := slot_actors current_placement remaining
      my_options.map (fun opt =>
        let road := pick_road gs opt.1 ranked top12_keys
        ((opt.1, road),
          run_slots acts max_window
            [(apply_placement gs opt.1 road gs.meta.p_curr, 1)]))

/-! ## Invariants of the simulation (claim C4) -/

/-- The probability mass of a branch list. -/
noncomputable def sum_probs {α : Type} (cases : List (α × ℝ)) : ℝ :=
  (cases.map Prod.snd).sum

/-- The slot-loop invariant: a nonempty branch list with positive
probabilities summing to 1. -/
def good_cases {α : Type} (cases : List (α × ℝ)) : Prop :=
  cases ≠ [] ∧ (∀ c ∈ cases, 0 < c.2) ∧ sum_probs cases = 1

theorem sum_probs_append {α : Type} (a b : List (α × ℝ)) :
    sum_probs (a ++ b) = sum_probs a + sum_probs b := by
  simp [sum_probs]

theorem sum_probs_flatMap {α β : Type} (f : α × ℝ → List (β × ℝ))
    (cases : List (α × ℝ)) :
    sum_probs (cases.flatMap f) = (cases.map (fun c => sum_probs (f c))).sum := by
  induction cases with
  | nil => simp [sum_probs]
  | cons c cs ih => rw [List.flatMap_cons, sum_probs_append, ih, List.map_cons, List.sum_cons]

theorem ne_nil_of_not_isEmpty {α : Type} {l : List α} (h : ¬ l.isEmpty = true) :
    l ≠ [] := by
  intro hnil
  rw [hnil] at h
  exact h rfl

theorem branch_case_sum (acting : Int) (c : GameState × ℝ) :
    sum_probs (branch_case acting c) = c.2 := by
  rw [branch_case]
  by_cases hE : (settle_decision
      { c.1 with meta := { c.1.meta with p_curr := acting } }).isEmpty
  · rw [if_pos hE]
    simp [sum_probs]
  · rw [if_neg hE]
    have hne : settle_decision { c.1 with meta := { c.1.meta with p_curr := acting } } ≠ [] :=
      ne_nil_of_not_isEmpty hE
    have hsum := ((settle_decision_spec _).2.1 hne).1
    rw [sum_probs, List.map_map]
    have hcomp : (Prod.snd ∘ fun dr : (List Int × List Int) × ℝ =>
        (apply_placement { c.1 with meta := { c.1.meta with p_curr := acting } } dr.1.1 dr.1.2 acting,
          c.2 * dr.2)) = fun dr => c.2 * dr.2 := rfl
    rw [hcomp, List.sum_map_mul_left]
    rw [show ((settle_decision { c.1 with meta := { c.1.meta with p_curr := acting } }).map
      (fun r => r.2)).sum = 1 from hsum, mul_one]

theorem branch_case_pos (acting : Int) (c : GameState × ℝ) (hc : 0 < c.2) :
    ∀ p ∈ branch_case acting c, 0 < p.2 := by
  intro p hp
  rw [branch_case] at hp
  by_cases hE : (settle_decision
      { c.1 with meta := { c.1.meta with p_curr := acting } }).isEmpty
  · rw [if_pos hE, List.mem_singleton] at hp
    rw [hp]
    exact hc
  · rw [if_neg hE] at hp
    obtain ⟨dr, hdr, rfl⟩ := List.mem_map.mp hp
    have hne : settle_decision { c.1 with meta := { c.1.meta with p_curr := acting } } ≠ [] :=
      ne_nil_of_not_isEmpty hE
    have hpos := ((settle_decision_spec _).2.1 hne).2 dr.2
      (List.mem_map.mpr ⟨dr, hdr, rfl⟩)
    exact mul_pos hc hpos

theorem branch_case_ne_nil (acting : Int) (c : GameState × ℝ) :
    branch_case acting c ≠ [] := by
  rw [branch_case]
  by_cases hE : (settle_decision
      { c.1 with meta := { c.1.meta with p_curr := acting } }).isEmpty
  · rw [if_pos hE]
    exact List.cons_ne_nil _ _
  · rw [if_neg hE]
    have hne : settle_decision { c.1 with meta := { c.1.meta with p_curr := acting } } ≠ [] :=
      ne_nil_of_not_isEmpty hE
    simpa using hne

theorem slot_fanout_sum (acting : Int) (cases : List (GameState × ℝ)) :
    sum_probs (slot_fanout acting cases) = sum_probs cases := by
  rw [slot_fanout, sum_probs_flatMap]
  rw [show (cases.map (fun c => sum_probs (branch_case acting c)))
    = cases.map Prod.snd from List.map_congr_left (fun c _ => branch_case_sum acting c)]
  rfl

theorem slot_fanout_good (acting : Int) (cases : List (GameState × ℝ))
    (h : good_cases cases) : good_cases (slot_fanout acting cases) := by
  obtain ⟨hne, hpos, hsum⟩ := h
  refine ⟨?_, ?_, ?_⟩
  · rw [slot_fanout]
    cases cases with
    | nil => exact absurd rfl hne
    | cons c cs =>
      rw [List.flatMap_cons]
      intro hnil
      exact branch_case_ne_nil acting c (List.append_eq_nil.mp hnil).1
  · intro p hp
    rw [slot_fanout, List.mem_flatMap] at hp
    obtain ⟨c, hc, hpc⟩ := hp
    exact branch_case_pos acting c (hpos c hc) p hpc
  · rw [slot_fanout_sum]
    exact hsum

theorem prune_refs {α : Type} (cases : List (α × ℝ)) (mw : Nat) :
    ∀ p ∈ prune_and_normalize cases mw, ∃ q ∈ cases, p.1 = q.1 := by
  intro p hp
  rw [prune_and_normalize] at hp
  by_cases hlen : cases.length ≤ mw
  · rw [if_pos hlen] at hp
    exact ⟨p, hp, rfl⟩
  · rw [if_neg hlen] at hp
    by_cases ht : 0 < (((cases.mergeSort (fun a b => decide (b.2 ≤ a.2))).take mw).map Prod.snd).sum
    · rw [if_pos ht] at hp
      obtain ⟨q, hq, rfl⟩ := List.mem_map.mp hp
      exact ⟨q, (List.mergeSort_perm cases _).mem_iff.mp (List.mem_of_mem_take hq), rfl⟩
    · rw [if_neg ht] at hp
      exact ⟨p, (List.mergeSort_perm cases _).mem_iff.mp (List.mem_of_mem_take hp), rfl⟩

theorem prune_good {α : Type} (cases : List (α × ℝ)) (mw : Nat) (hmw : 1 ≤ mw)
    (h : good_cases cases) :
    good_cases (prune_and_normalize cases mw)
    ∧ (prune_and_normalize cases mw).length ≤ mw := by
  obtain ⟨hne, hpos, hsum⟩ := h
  rw [prune_and_normalize]
  by_cases hlen : cases.length ≤ mw
  · rw [if_pos hlen]
    exact ⟨⟨hne, hpos, hsum⟩, hlen⟩
  · rw [if_neg hlen]
    push_neg at hlen
    set sorted := cases.mergeSort (fun a b => decide (b.2 ≤ a.2)) with hsorted
    set kept := sorted.take mw with hkept
    have hkeptlen : kept.length = mw := by
      rw [hkept, List.length_take, hsorted, List.length_mergeSort]
      omega
    have hkeptpos : ∀ c ∈ kept, 0 < c.2 := by
      intro c hc
      exact hpos c ((List.mergeSort_perm cases _).mem_iff.mp (List.mem_of_mem_take hc))
    have hkeptne : kept ≠ [] := by
      rw [ne_eq, ← List.length_eq_zero, hkeptlen]
      omega
    have htot : 0 < (kept.map Prod.snd).sum := by
      apply List.sum_pos
      · intro x hx
        obtain ⟨c, hc, rfl⟩ := List.mem_map.mp hx
        exact hkeptpos c hc
      · simpa using hkeptne
    rw [if_pos htot]
    refine ⟨⟨by simpa using hkeptne, ?_, ?_⟩, by simpa [hkeptlen] using le_refl mw⟩
    · intro p hp
      obtain ⟨c, hc, rfl⟩ := List.mem_map.mp hp
      exact div_pos (hkeptpos c hc) htot
    · rw [sum_probs, List.map_map]
      have hcomp : (Prod.snd ∘ fun c : α × ℝ => (c.1, c.2 / (kept.map Prod.snd).sum))
          = fun c : α × ℝ => c.2 * ((kept.map Prod.snd).sum)⁻¹ := by
        funext c
        simp [div_eq_mul_inv]
      rw [hcomp, List.sum_map_mul_right]
      exact mul_inv_cancel₀ (ne_of_gt htot)

theorem run_slots_good (mw : Nat) (hmw : 1 ≤ mw) (acts : List Int) :
    ∀ cases : List (GameState × ℝ), good_cases cases → cases.length ≤ mw →
      good_cases (run_slots acts mw cases) ∧ (run_slots acts mw cases).length ≤ mw := by
  induction acts with
  | nil =>
    intro cases h hlen
    exact ⟨h, hlen⟩
  | cons a rest ih =>
    intro cases h _
    have hstep := prune_good (slot_fanout a cases) mw hmw (slot_fanout_good a cases h)
    have : run_slots (a :: rest) mw cases
        = run_slots rest mw (prune_and_normalize (slot_fanout a cases) mw) := rfl
    rw [this]
    exact ih _ hstep.1 hstep.2

/-- Claim C4.  At every simulated placement slot applied to a branch
list satisfying the loop invariant, the branch probabilities sum to 1
both before pruning (the fanned-out new_cases) and after pruning (via
renormalization), and the pruned list never exceeds max_window; and
every branch list simulate_settle returns has length at most
max_window (default 20) and probability total 1. -/
theorem simulate_settle_contract (gs : GameState) (x max_window : Nat)
    (hmw : 1 ≤ max_window) :
    (∀ (acting : Int) (cases : List (GameState × ℝ)), good_cases cases →
        sum_probs (slot_fanout acting cases) = 1
        ∧ sum_probs (prune_and_normalize (slot_fanout acting cases) max_window) = 1
        ∧ (prune_and_normalize (slot_fanout acting cases) max_window).length ≤ max_window)
    ∧ (∀ entry ∈ simulate_settle gs x max_window,
        entry.2.length ≤ max_window ∧ sum_probs entry.2 = 1) := by
  constructor
  · intro acting cases h
    have hfan := slot_fanout_good acting cases h
    have hprune := prune_good (slot_fanout acting cases) max_window hmw hfan
    exact ⟨by rw [slot_fanout_sum]; exact h.2.2, hprune.1.2.2, hprune.2⟩
  · intro entry hentry
    rw [simulate_settle] at hentry
    by_cases hrem : (SETTLE_ORDER.length : Int) - gs.map.nodes.length ≤ 0
    · rw [if_pos hrem] at hentry
      cases hentry
    · rw [if_neg hrem] at hentry
      by_cases hopt : (top_settle_spots gs x).isEmpty
      · rw [if_pos hopt] at hentry
        cases hentry
      · rw [if_neg hopt] at hentry
        obtain ⟨opt, _, rfl⟩ := List.mem_map.mp hentry
        have hgood : good_cases [(apply_placement gs opt.1
            (pick_road gs opt.1 (rank_all_spots gs)
              (((rank_all_spots gs).take 12).map Prod.fst)) gs.meta.p_curr, (1 : ℝ))] := by
          refine ⟨List.cons_ne_nil _ _, ?_, by simp [sum_probs]⟩
          intro c hc
          rw [List.mem_singleton] at hc
          rw [hc]
          norm_num
        have := run_slots_good max_window hmw
          (slot_actors gs.map.nodes.length ((SETTLE_ORDER.length : Int) - gs.map.nodes.length))
          _ hgood (by simpa using hmw)
        exact ⟨this.2, this.1.2.2⟩

/-- Witness for C4 on the open board with the default parameters. -/
theorem simulate_settle_contract_witness :
    (1 : Nat) ≤ 20
    ∧ good_cases [(gs_open, (1 : ℝ))]
    ∧ sum_probs (slot_fanout 1 [(gs_open, (1 : ℝ))]) = 1
    ∧ (∀ entry ∈ simulate_settle gs_open 6 20,
        entry.2.length ≤ 20 ∧ sum_probs entry.2 = 1) := by
  have hgood : good_cases [(gs_open, (1 : ℝ))] := by
    refine ⟨List.cons_ne_nil _ _, ?_, by simp [sum_probs]⟩
    intro c hc
    rw [List.mem_singleton] at hc
    rw [hc]
    norm_num
  exact ⟨by decide, hgood,
    ((simulate_settle_contract gs_open 6 20 (by decide)).1 1 _ hgood).1,
    (simulate_settle_contract gs_open 6 20 (by decide)).2⟩

/-! ## Store model of the simulator (claim C9)

Python passes GameState objects by reference and mutates them in
place.  To settle the frame claim we re-run simulate_settle over an
explicit heap: a store of GameState cells addressed by natural-number
references.  A model_copy(deep=True) allocates a fresh cell holding a
copy of the addressed cell; an attribute assignment writes the
addressed cell in place.  The input state is cell 0.  The theorem
verifies that after the whole run cell 0 still holds the input
unchanged, and that the retained branches carry pairwise distinct
references none of which is 0, so no branch aliases the input or
another branch. -/

/-- The heap of GameState objects; a reference is an index into it. -/
abbrev Store := List GameState

/-- Dereference a cell (getD with an inert default; every reference the
simulator creates stays in range). -/
def readRef (st : Store) (r : Nat) : GameState := st.getD r default

/-- In-place mutation of the addressed cell. -/
def writeRef (st : Store) (r : Nat) (g : GameState) : Store := st.set r g

theorem length_writeRef (st : Store) (r : Nat) (g : GameState) :
    (writeRef st r g).length = st.length := by
  simp [writeRef]

theorem readRef_writeRef_ne (st : Store) (r i : Nat) (g : GameState) (h : r ≠ i) :
    readRef (writeRef st r g) i = readRef st i := by
  simp [readRef, writeRef, List.getElem?_set_ne h]

theorem readRef_append_left (st : Store) (l : List GameState) (i : Nat)
    (h : i < st.length) :
    readRef (st ++ l) i = readRef st i := by
  simp [readRef, List.getElem?_append_left h]

/-- settle_sim._apply_placement over the store: model_copy(deep=True)
allocates a fresh cell holding a copy of the parent, and the two
assignments write the nodes and then the edges of that fresh cell in
place.  Returns the new store and the fresh reference. -/
def apply_placement_ref (st : Store) (r : Nat) (settle_spot road_spot : List Int)
    (player_id : Int) : Store × Nat :=
  let gs := readRef st r
  let st1 := st ++ [gs]
  let r1 := st.length
  let g1 := readRef st1 r1
  let st2 := writeRef st1 r1
    { g1 with map := { g1.map with
        nodes := dictSet g1.map.nodes settle_spot (player_id, 1) } }
  let g2 := readRef st2 r1
  let st3 := writeRef st2 r1
    { g2 with map := { g2.map with
        edges := dictSet g2.map.edges road_spot player_id } }
  (st3, r1)

theorem apply_placement_ref_spec (st : Store) (r : Nat) (s rd : List Int) (pid : Int) :
    (apply_placement_ref st r s rd pid).2 = st.length
    ∧ (apply_placement_ref st r s rd pid).1.length = st.length + 1
    ∧ (∀ i, i < st.length →
        readRef (apply_placement_ref st r s rd pid).1 i = readRef st i) := by
  refine ⟨rfl, ?_, ?_⟩
  · simp [apply_placement_ref, writeRef]
  · intro i hi
    have h1 : st.length ≠ i := by omega
    simp only [apply_placement_ref]
    rw [readRef_writeRef_ne _ _ _ _ h1, readRef_writeRef_ne _ _ _ _ h1,
      readRef_append_left _ _ _ hi]

/-- One decision branch of the inner loop: allocate the placement copy
and append its reference with the combined probability. -/
noncomputable def place_step (acting : Int) (rs : Nat) (p : ℝ)
    (acc : Store × List (Nat × ℝ)) (dr : (List Int × List Int) × ℝ) :
    Store × List (Nat × ℝ) :=
  ((apply_placement_ref acc.1 rs dr.1.1 dr.1.2 acting).1,
    acc.2 ++ [((apply_placement_ref acc.1 rs dr.1.1 dr.1.2 acting).2, p * dr.2)])

theorem place_fold_spec (acting : Int) (rs : Nat) (p : ℝ)
    (drs : List ((List Int × List Int) × ℝ)) :
    ∀ (st : Store) (accl : List (Nat × ℝ)),
      (∀ b ∈ accl, b.1 < st.length) →
      ((accl.map Prod.fst).Nodup) →
      st.length ≤ (drs.foldl (place_step acting rs p) (st, accl)).1.length
      ∧ (∀ i, i < st.length →
          readRef (drs.foldl (place_step acting rs p) (st, accl)).1 i = readRef st i)
      ∧ (∀ b ∈ (drs.foldl (place_step acting rs p) (st, accl)).2,
          b.1 < (drs.foldl (place_step acting rs p) (st, accl)).1.length)
      ∧ (∀ b ∈ (drs.foldl (place_step acting rs p) (st, accl)).2,
          b ∈ accl ∨ st.length ≤ b.1)
      ∧ ((drs.foldl (place_step acting rs p) (st, accl)).2.map Prod.fst).Nodup := by
  induction drs with
  | nil =>
    intro st accl hval hnd
    exact ⟨le_rfl, fun i _ => rfl, hval, fun b hb => Or.inl hb, hnd⟩
  | cons dr drs ih =>
    intro st accl hval hnd
    obtain ⟨href, hlen, hpres⟩ := apply_placement_ref_spec st rs dr.1.1 dr.1.2 acting
    have hstep : place_step acting rs p (st, accl) dr
        = ((apply_placement_ref st rs dr.1.1 dr.1.2 acting).1,
            accl ++ [((apply_placement_ref st rs dr.1.1 dr.1.2 acting).2, p * dr.2)]) := rfl
    have hval' : ∀ b ∈ accl ++ [((apply_placement_ref st rs dr.1.1 dr.1.2 acting).2, p * dr.2)],
        b.1 < (apply_placement_ref st rs dr.1.1 dr.1.2 acting).1.length := by
      intro b hb
      rcases List.mem_append.mp hb with hb | hb
      · have := hval b hb
        omega
      · rw [List.mem_singleton] at hb
        subst hb
        show (apply_placement_ref st rs dr.1.1 dr.1.2 acting).2
          < (apply_placement_ref st rs dr.1.1 dr.1.2 acting).1.length
        rw [href, hlen]
        omega
    have hnd' : ((accl
        ++ [((apply_placement_ref st rs dr.1.1 dr.1.2 acting).2, p * dr.2)]).map
          Prod.fst).Nodup := by
      rw [List.map_append]
      refine List.nodup_append.mpr ⟨hnd, List.nodup_singleton _, ?_⟩
      intro a ha hb
      rw [List.map_singleton, List.mem_singleton] at hb
      obtain ⟨b, hbmem, rfl⟩ := List.mem_map.mp ha
      have h1 := hval b hbmem
      rw [href] at hb
      omega
    rw [List.foldl_cons, hstep]
    obtain ⟨i1, i2, i3, i4, i5⟩ := ih (apply_placement_ref st rs dr.1.1 dr.1.2 acting).1
      (accl ++ [((apply_placement_ref st rs dr.1.1 dr.1.2 acting).2, p * dr.2)]) hval' hnd'
    refine ⟨by omega, ?_, i3, ?_, i5⟩
    · intro i hi
      rw [i2 i (by omega), hpres i hi]
    · intro b hb
      rcases i4 b hb with hb' | hb'
      · rcases List.mem_append.mp hb' with h | h
        · exact Or.inl h
        · rw [List.mem_singleton] at h
          subst h
          refine Or.inr ?_
          show st.length ≤ (apply_placement_ref st rs dr.1.1 dr.1.2 acting).2
          exact le_of_eq href.symm
      · exact Or.inr (by omega)

/-- The decision dispatch of the inner loop, split out so the store facts
can be proved by cases on the decision list. -/
noncomputable def branch_case_ref_core (acting : Int) (case_ : Nat × ℝ) (rs : Nat)
    (st2 : Store) : Store × List (Nat × ℝ) :=
  if (settle_decision (readRef st2 rs)).isEmpty then (st2, [case_])
  else (settle_decision (readRef st2 rs)).foldl (place_step acting rs case_.2) (st2, [])

theorem branch_case_ref_core_spec (acting : Int) (case_ : Nat × ℝ) (rs : Nat)
    (st2 : Store) (hcase : case_.1 < st2.length) :
    st2.length ≤ (branch_case_ref_core acting case_ rs st2).1.length
    ∧ (∀ i, i < st2.length →
        readRef (branch_case_ref_core acting case_ rs st2).1 i = readRef st2 i)
    ∧ (∀ b ∈ (branch_case_ref_core acting case_ rs st2).2,
        b.1 < (branch_case_ref_core acting case_ rs st2).1.length)
    ∧ (∀ b ∈ (branch_case_ref_core acting case_ rs st2).2, b = case_ ∨ st2.length ≤ b.1)
    ∧ ((branch_case_ref_core acting case_ rs st2).2.map Prod.fst).Nodup := by
  rw [branch_case_ref_core]
  by_cases hE : (settle_decision (readRef st2 rs)).isEmpty
  · rw [if_pos hE]
    refine ⟨le_rfl, fun i _ => rfl, ?_, ?_, List.nodup_singleton _⟩
    · intro b hb
      rw [List.mem_singleton] at hb
      subst hb
      exact hcase
    · intro b hb
      rw [List.mem_singleton] at hb
      exact Or.inl hb
  · rw [if_neg hE]
    obtain ⟨f1, f2, f3, f4, f5⟩ := place_fold_spec acting rs case_.2
      (settle_decision (readRef st2 rs)) st2 []
      (by intro b hb; simp at hb) List.nodup_nil
    refine ⟨f1, f2, f3, ?_, f5⟩
    intro b hb
    rcases f4 b hb with h | h
    · simp at h
    · exact Or.inr h

/-- The inner loop body over the store: sim_gs = case_gs.model_copy(deep=True)
allocates the acting copy, the p_curr assignment writes it in place, and
the decision branches each allocate a placement copy; with no decisions
the old reference is carried forward unchanged. -/
noncomputable def branch_case_ref (acting : Int) (st : Store) (case_ : Nat × ℝ) :
    Store × List (Nat × ℝ) :=
  branch_case_ref_core acting case_ st.length
    (writeRef (st ++ [readRef st case_.1]) st.length
      { readRef (st ++ [readRef st case_.1]) st.length with
        meta := { (readRef (st ++ [readRef st case_.1]) st.length).meta with
          p_curr := acting } })

theorem branch_case_ref_spec (acting : Int) (st : Store) (case_ : Nat × ℝ)
    (hr : case_.1 < st.length) :
    st.length ≤ (branch_case_ref acting st case_).1.length
    ∧ (∀ i, i < st.length →
        readRef (branch_case_ref acting st case_).1 i = readRef st i)
    ∧ (∀ b ∈ (branch_case_ref acting st case_).2,
        b.1 < (branch_case_ref acting st case_).1.length)
    ∧ (∀ b ∈ (branch_case_ref acting st case_).2, b.1 = case_.1 ∨ st.length ≤ b.1)
    ∧ ((branch_case_ref acting st case_).2.map Prod.fst).Nodup := by
  rw [branch_case_ref]
  set st2 := writeRef (st ++ [readRef st case_.1]) st.length
    { readRef (st ++ [readRef st case_.1]) st.length with
      meta := { (readRef (st ++ [readRef st case_.1]) st.length).meta with
        p_curr := acting } } with hst2
  have hlen2 : st2.length = st.length + 1 := by
    rw [hst2, length_writeRef]
    simp
  have hpres2 : ∀ i, i < st.length → readRef st2 i = readRef st i := by
    intro i hi
    have h1 : st.length ≠ i := by omega
    rw [hst2, readRef_writeRef_ne _ _ _ _ h1, readRef_append_left _ _ _ hi]
  obtain ⟨c1, c2, c3, c4, c5⟩ := branch_case_ref_core_spec acting case_ st.length st2
    (by omega)
  refine ⟨by omega, ?_, c3, ?_, c5⟩
  · intro i hi
    rw [c2 i (by omega), hpres2 i hi]
  · intro b hb
    rcases c4 b hb with h | h
    · exact Or.inl (by rw [h])
    · exact Or.inr (by omega)

/-- One parent branch of the slot loop: run branch_case_ref and append
its branches to the accumulated new_cases. -/
noncomputable def fanout_step (acting : Int) (acc : Store × List (Nat × ℝ))
    (c : Nat × ℝ) : Store × List (Nat × ℝ) :=
  ((branch_case_ref acting acc.1 c).1, acc.2 ++ (branch_case_ref acting acc.1 c).2)

/-- One simulated placement slot over the store. -/
noncomputable def slot_fanout_ref (acting : Int) (st : Store)
    (cases : List (Nat × ℝ)) : Store × List (Nat × ℝ) :=
  cases.foldl (fanout_step acting) (st, [])

theorem fanout_fold_spec (acting : Int) (n : Nat) (cases : List (Nat × ℝ)) :
    ∀ (st : Store) (accl : List (Nat × ℝ)),
      n ≤ st.length →
      (∀ c ∈ cases, c.1 < n) →
      ((cases.map Prod.fst).Nodup) →
      (∀ b ∈ accl, b.1 < st.length) →
      ((accl.map Prod.fst).Nodup) →
      (∀ b ∈ accl, n ≤ b.1 ∨ b.1 ∉ cases.map Prod.fst) →
      st.length ≤ (cases.foldl (fanout_step acting) (st, accl)).1.length
      ∧ (∀ i, i < st.length →
          readRef (cases.foldl (fanout_step acting) (st, accl)).1 i = readRef st i)
      ∧ (∀ b ∈ (cases.foldl (fanout_step acting) (st, accl)).2,
          b.1 < (cases.foldl (fanout_step acting) (st, accl)).1.length)
      ∧ ((cases.foldl (fanout_step acting) (st, accl)).2.map Prod.fst).Nodup
      ∧ (∀ b ∈ (cases.foldl (fanout_step acting) (st, accl)).2,
          b ∈ accl ∨ (∃ c ∈ cases, b.1 = c.1) ∨ st.length ≤ b.1) := by
  induction cases with
  | nil =>
    intro st accl _ _ _ hvala hnda _
    exact ⟨le_rfl, fun i _ => rfl, hvala, hnda, fun b hb => Or.inl hb⟩
  | cons c cs ih =>
    intro st accl hn hcases hndc hvala hnda hsep
    rw [List.map_cons] at hndc
    obtain ⟨hhead, hndcs⟩ := List.nodup_cons.mp hndc
    have hc : c.1 < n := hcases c (List.mem_cons_self c cs)
    obtain ⟨b1, b2, b3, b4, b5⟩ := branch_case_ref_spec acting st c (by omega)
    have hstep : fanout_step acting (st, accl) c
        = ((branch_case_ref acting st c).1, accl ++ (branch_case_ref acting st c).2) := rfl
    rw [List.foldl_cons, hstep]
    have hvala' : ∀ b ∈ accl ++ (branch_case_ref acting st c).2,
        b.1 < (branch_case_ref acting st c).1.length := by
      intro b hb
      rcases List.mem_append.mp hb with h | h
      · have := hvala b h
        omega
      · exact b3 b h
    have hnda' : ((accl ++ (branch_case_ref acting st c).2).map Prod.fst).Nodup := by
      rw [List.map_append]
      refine List.nodup_append.mpr ⟨hnda, b5, ?_⟩
      intro a ha hb
      obtain ⟨p, hpmem, rfl⟩ := List.mem_map.mp ha
      obtain ⟨q, hqmem, hq⟩ := List.mem_map.mp hb
      rcases b4 q hqmem with h | h
      · rcases hsep p hpmem with h1 | h1
        · omega
        · apply h1
          rw [List.map_cons]
          have hpc : p.1 = c.1 := by rw [← hq, h]
          rw [hpc]
          exact List.mem_cons_self _ _
      · have := hvala p hpmem
        omega
    have hsep' : ∀ b ∈ accl ++ (branch_case_ref acting st c).2,
        n ≤ b.1 ∨ b.1 ∉ cs.map Prod.fst := by
      intro b hb
      rcases List.mem_append.mp hb with h | h
      · rcases hsep b h with h1 | h1
        · exact Or.inl h1
        · refine Or.inr (fun hmem => h1 ?_)
          rw [List.map_cons]
          exact List.mem_cons_of_mem _ hmem
      · rcases b4 b h with h1 | h1
        · refine Or.inr ?_
          rw [h1]
          exact hhead
        · exact Or.inl (by omega)
    obtain ⟨i1, i2, i3, i4, i5⟩ := ih (branch_case_ref acting st c).1
      (accl ++ (branch_case_ref acting st c).2) (by omega)
      (fun c' hc' => hcases c' (List.mem_cons_of_mem _ hc')) hndcs hvala' hnda' hsep'
    refine ⟨by omega, ?_, i3, i4, ?_⟩
    · intro i hi
      rw [i2 i (by omega), b2 i hi]
    · intro b hb
      rcases i5 b hb with h | h | h
      · rcases List.mem_append.mp h with h' | h'
        · exact Or.inl h'
        · rcases b4 b h' with h'' | h''
          · exact Or.inr (Or.inl ⟨c, List.mem_cons_self _ _, h''⟩)
          · exact Or.inr (Or.inr (by omega))
      · obtain ⟨c', hc', he⟩ := h
        exact Or.inr (Or.inl ⟨c', List.mem_cons_of_mem _ hc', he⟩)
      · exact Or.inr (Or.inr (by omega))

theorem prune_nodup {α : Type} (cases : List (α × ℝ)) (mw : Nat)
    (h : (cases.map Prod.fst).Nodup) :
    ((prune_and_normalize cases mw).map Prod.fst).Nodup := by
  rw [prune_and_normalize]
  by_cases hlen : cases.length ≤ mw
  · rw [if_pos hlen]
    exact h
  · rw [if_neg hlen]
    have hperm := (List.mergeSort_perm cases (fun a b => decide (b.2 ≤ a.2))).map Prod.fst
    have hnodup_sorted :
        ((cases.mergeSort (fun a b => decide (b.2 ≤ a.2))).map Prod.fst).Nodup :=
      hperm.nodup_iff.mpr h
    have htake :
        (((cases.mergeSort (fun a b => decide (b.2 ≤ a.2))).take mw).map Prod.fst).Nodup := by
      rw [List.map_take]
      exact List.Sublist.nodup (List.take_sublist _ _) hnodup_sorted
    by_cases ht : 0 < ((((cases.mergeSort (fun a b => decide (b.2 ≤ a.2))).take mw).map
        Prod.snd).sum : ℝ)
    · rw [if_pos ht, List.map_map]
      exact htake
    · rw [if_neg ht]
      exact htake

/-- One slot of the loop: fan out, then prune and renormalize. -/
noncomputable def slots_step (mw : Nat) (acc : Store × List (Nat × ℝ)) (acting : Int) :
    Store × List (Nat × ℝ) :=
  ((slot_fanout_ref acting acc.1 acc.2).1,
    prune_and_normalize (slot_fanout_ref acting acc.1 acc.2).2 mw)

/-- The slot loop of simulate_settle over the store. -/
noncomputable def run_slots_ref (acts : List Int) (mw : Nat)
    (stcs : Store × List (Nat × ℝ)) : Store × List (Nat × ℝ) :=
  acts.foldl (slots_step mw) stcs

theorem run_slots_ref_spec (mw : Nat) (lo : Nat) (acts : List Int) :
    ∀ (st : Store) (cases : List (Nat × ℝ)),
      lo ≤ st.length →
      (∀ c ∈ cases, c.1 < st.length) →
      ((cases.map Prod.fst).Nodup) →
      (∀ c ∈ cases, lo ≤ c.1) →
      st.length ≤ (run_slots_ref acts mw (st, cases)).1.length
      ∧ (∀ i, i < st.length →
          readRef (run_slots_ref acts mw (st, cases)).1 i = readRef st i)
      ∧ (∀ b ∈ (run_slots_ref acts mw (st, cases)).2,
          b.1 < (run_slots_ref acts mw (st, cases)).1.length)
      ∧ ((run_slots_ref acts mw (st, cases)).2.map Prod.fst).Nodup
      ∧ (∀ b ∈ (run_slots_ref acts mw (st, cases)).2, lo ≤ b.1) := by
  induction acts with
  | nil =>
    intro st cases _ hval hnd hcl
    exact ⟨le_rfl, fun i _ => rfl, hval, hnd, hcl⟩
  | cons a acts ih =>
    intro st cases hlo hval hnd hcl
    have hrw : run_slots_ref (a :: acts) mw (st, cases)
        = run_slots_ref acts mw (slots_step mw (st, cases) a) := rfl
    rw [hrw]
    have hstep : slots_step mw (st, cases) a
        = ((cases.foldl (fanout_step a) (st, [])).1,
            prune_and_normalize (cases.foldl (fanout_step a) (st, [])).2 mw) := rfl
    rw [hstep]
    obtain ⟨f1, f2, f3, f4, f5⟩ := fanout_fold_spec a st.length cases st []
      le_rfl hval hnd (by intro b hb; simp at hb) List.nodup_nil
      (by intro b hb; simp at hb)
    have hprefs := prune_refs (cases.foldl (fanout_step a) (st, [])).2 mw
    have hpnodup := prune_nodup (cases.foldl (fanout_step a) (st, [])).2 mw f4
    obtain ⟨i1, i2, i3, i4, i5⟩ := ih (cases.foldl (fanout_step a) (st, [])).1
      (prune_and_normalize (cases.foldl (fanout_step a) (st, [])).2 mw)
      (by omega)
      (by intro p hp
          obtain ⟨q, hq, he⟩ := hprefs p hp
          rw [he]
          exact f3 q hq)
      hpnodup
      (by intro p hp
          obtain ⟨q, hq, he⟩ := hprefs p hp
          rcases f5 q hq with h | h | h
          · simp at h
          · obtain ⟨c', hc', he'⟩ := h
            rw [he, he']
            exact hcl c' hc'
          · rw [he]
            omega)
    refine ⟨by omega, ?_, i3, i4, i5⟩
    intro i hi
    rw [i2 i (by omega), f2 i hi]

/-- The branch references retained across all returned options. -/
def allBranchRefs (results : List ((List Int × List Int) × List (Nat × ℝ))) :
    List Nat :=
  results.flatMap (fun e => e.2.map Prod.fst)

theorem allBranchRefs_append (accr : List ((List Int × List Int) × List (Nat × ℝ)))
    (e : (List Int × List Int) × List (Nat × ℝ)) :
    allBranchRefs (accr ++ [e]) = allBranchRefs accr ++ e.2.map Prod.fst := by
  simp [allBranchRefs]

/-- One candidate option of simulate_settle over the store: place my
settlement on a fresh copy of the input (cell 0) with probability 1 and
run the remaining slots of the snake draft. -/
noncomputable def option_step (gs : GameState) (ranked : List (List Int × ℝ))
    (top12_keys : List (List Int)) (acts : List Int) (mw : Nat)
    (acc : Store × List ((List Int × List Int) × List (Nat × ℝ)))
    (opt : List Int × ℝ) : Store × List ((List Int × List Int) × List (Nat × ℝ)) :=
  let road := pick_road gs opt.1 ranked top12_keys
  let res0 := apply_placement_ref acc.1 0 opt.1 road gs.meta.p_curr
  let res := run_slots_ref acts mw (res0.1, [(res0.2, 1)])
  (res.1, acc.2 ++ [((opt.1, road), res.2)])

theorem option_step_spec (gs : GameState) (ranked : List (List Int × ℝ))
    (tk : List (List Int)) (acts : List Int) (mw : Nat)
    (st : Store) (accr : List ((List Int × List Int) × List (Nat × ℝ)))
    (opt : List Int × ℝ) :
    st.length ≤ (option_step gs ranked tk acts mw (st, accr) opt).1.length
    ∧ (∀ i, i < st.length →
        readRef (option_step gs ranked tk acts mw (st, accr) opt).1 i = readRef st i)
    ∧ (∀ r ∈ allBranchRefs (option_step gs ranked tk acts mw (st, accr) opt).2,
        r ∈ allBranchRefs accr
        ∨ (st.length ≤ r ∧ r < (option_step gs ranked tk acts mw (st, accr) opt).1.length))
    ∧ ((allBranchRefs accr).Nodup → (∀ r ∈ allBranchRefs accr, r < st.length) →
        (allBranchRefs (option_step gs ranked tk acts mw (st, accr) opt).2).Nodup) := by
  obtain ⟨a1, a2, a3⟩ := apply_placement_ref_spec st 0 opt.1
    (pick_road gs opt.1 ranked tk) gs.meta.p_curr
  obtain ⟨r1, r2, r3, r4, r5⟩ := run_slots_ref_spec mw st.length acts
    (apply_placement_ref st 0 opt.1 (pick_road gs opt.1 ranked tk) gs.meta.p_curr).1
    [((apply_placement_ref st 0 opt.1 (pick_road gs opt.1 ranked tk) gs.meta.p_curr).2, 1)]
    (by omega)
    (by intro c hc
        rw [List.mem_singleton] at hc
        subst hc
        show (apply_placement_ref st 0 opt.1 (pick_road gs opt.1 ranked tk)
            gs.meta.p_curr).2 < _
        rw [a1, a2]
        omega)
    (List.nodup_singleton _)
    (by intro c hc
        rw [List.mem_singleton] at hc
        subst hc
        show st.length ≤ (apply_placement_ref st 0 opt.1 (pick_road gs opt.1 ranked tk)
            gs.meta.p_curr).2
        exact le_of_eq a1.symm)
  show st.length ≤ (run_slots_ref acts mw
        ((apply_placement_ref st 0 opt.1 (pick_road gs opt.1 ranked tk) gs.meta.p_curr).1,
          [((apply_placement_ref st 0 opt.1 (pick_road gs opt.1 ranked tk)
            gs.meta.p_curr).2, 1)])).1.length
    ∧ (∀ i, i < st.length →
        readRef (run_slots_ref acts mw
          ((apply_placement_ref st 0 opt.1 (pick_road gs opt.1 ranked tk) gs.meta.p_curr).1,
            [((apply_placement_ref st 0 opt.1 (pick_road gs opt.1 ranked tk)
              gs.meta.p_curr).2, 1)])).1 i = readRef st i)
    ∧ (∀ r ∈ allBranchRefs (accr ++ [((opt.1, pick_road gs opt.1 ranked tk),
          (run_slots_ref acts mw
            ((apply_placement_ref st 0 opt.1 (pick_road gs opt.1 ranked tk)
                gs.meta.p_curr).1,
              [((apply_placement_ref st 0 opt.1 (pick_road gs opt.1 ranked tk)
                gs.meta.p_curr).2, 1)])).2)]),
        r ∈ allBranchRefs accr
        ∨ (st.length ≤ r ∧ r < (run_slots_ref acts mw
            ((apply_placement_ref st 0 opt.1 (pick_road gs opt.1 ranked tk)
                gs.meta.p_curr).1,
              [((apply_placement_ref st 0 opt.1 (pick_road gs opt.1 ranked tk)
                gs.meta.p_curr).2, 1)])).1.length))
    ∧ ((allBranchRefs accr).Nodup → (∀ r ∈ allBranchRefs accr, r < st.length) →
        (allBranchRefs (accr ++ [((opt.1, pick_road gs opt.1 ranked tk),
          (run_slots_ref acts mw
            ((apply_placement_ref st 0 opt.1 (pick_road gs opt.1 ranked tk)
                gs.meta.p_curr).1,
              [((apply_placement_ref st 0 opt.1 (pick_road gs opt.1 ranked tk)
                gs.meta.p_curr).2, 1)])).2)])).Nodup)
  refine ⟨by omega, ?_, ?_, ?_⟩
  · intro i hi
    rw [r2 i (by omega), a3 i hi]
  · intro r hr
    rw [allBranchRefs_append] at hr
    rcases List.mem_append.mp hr with h | h
    · exact Or.inl h
    · obtain ⟨b, hb, rfl⟩ := List.mem_map.mp h
      exact Or.inr ⟨r5 b hb, r3 b hb⟩
  · intro hnd hlt
    rw [allBranchRefs_append]
    refine List.nodup_append.mpr ⟨hnd, r4, ?_⟩
    intro a ha hb
    obtain ⟨b, hbmem, rfl⟩ := List.mem_map.mp hb
    have h1 := hlt b.1 ha
    have h2 := r5 b hbmem
    omega

theorem options_fold_spec (gs : GameState) (ranked : List (List Int × ℝ))
    (tk : List (List Int)) (acts : List Int) (mw : Nat)
    (opts : List (List Int × ℝ)) :
    ∀ (st : Store) (accr : List ((List Int × List Int) × List (Nat × ℝ))),
      (∀ r ∈ allBranchRefs accr, r < st.length) →
      (allBranchRefs accr).Nodup →
      st.length ≤ (opts.foldl (option_step gs ranked tk acts mw) (st, accr)).1.length
      ∧ (∀ i, i < st.length →
          readRef (opts.foldl (option_step gs ranked tk acts mw) (st, accr)).1 i
            = readRef st i)
      ∧ (∀ r ∈ allBranchRefs (opts.foldl (option_step gs ranked tk acts mw) (st, accr)).2,
          r ∈ allBranchRefs accr ∨ st.length ≤ r)
      ∧ (∀ r ∈ allBranchRefs (opts.foldl (option_step gs ranked tk acts mw) (st, accr)).2,
          r < (opts.foldl (option_step gs ranked tk acts mw) (st, accr)).1.length)
      ∧ (allBranchRefs (opts.foldl (option_step gs ranked tk acts mw) (st, accr)).2).Nodup := by
  induction opts with
  | nil =>
    intro st accr hlt hnd
    exact ⟨le_rfl, fun i _ => rfl, fun r hr => Or.inl hr, hlt, hnd⟩
  | cons opt opts ih =>
    intro st accr hlt hnd
    rw [List.foldl_cons]
    obtain ⟨o1, o2, o3, o4⟩ := option_step_spec gs ranked tk acts mw st accr opt
    have hlt' : ∀ r ∈ allBranchRefs (option_step gs ranked tk acts mw (st, accr) opt).2,
        r < (option_step gs ranked tk acts mw (st, accr) opt).1.length := by
      intro r hr
      rcases o3 r hr with h | h
      · exact lt_of_lt_of_le (hlt r h) o1
      · exact h.2
    have hnd' := o4 hnd hlt
    obtain ⟨i1, i2, i3, i4, i5⟩ := ih (option_step gs ranked tk acts mw (st, accr) opt).1
      (option_step gs ranked tk acts mw (st, accr) opt).2 hlt' hnd'
    refine ⟨le_trans o1 i1, ?_, ?_, ?_, i5⟩
    · intro i hi
      exact (i2 i (lt_of_lt_of_le hi o1)).trans (o2 i hi)
    · intro r hr
      rcases i3 r hr with h | h
      · rcases o3 r h with h' | h'
        · exact Or.inl h'
        · exact Or.inr h'.1
      · exact Or.inr (le_trans o1 h)
    · intro r hr
      exact i4 r hr

/-- settle_sim.simulate_settle over the store: the input state is cell
0 and each candidate option is simulated in sequence on the growing
heap. -/
noncomputable def simulate_settle_ref (gs : GameState) (x : Nat := 6)
    (max_window : Nat := MAX_WINDOW) :
    Store × List ((List Int × List Int) × List (Nat × ℝ)) :=
  let st0 : Store := [gs]
  let current_placement := gs.map.nodes.length
  let remaining : Int := (SETTLE_ORDER.length : Int) - current_placement
  if remaining ≤ 0 then (st0, [])
  else
    let my_options := top_settle_spots gs x
    if my_options.isEmpty then (st0, [])
    else
      let ranked := rank_all_spots gs
      let top12_keys := (ranked.take 12).map Prod.fst
      let acts := slot_actors current_placement remaining
      my_options.foldl (option_step gs ranked top12_keys acts max_window) (st0, [])

/-- Claim C9.  simulate_settle never mutates its input GameState: in the
store model, where the heap is explicit, model_copy(deep=True) allocates
a fresh cell and attribute assignment writes the addressed cell in
place, the input lives in cell 0 and after the whole run cell 0 still
holds the input unchanged; moreover the retained branches of all
options carry pairwise distinct references, none of them the input's,
so no branch shares board data with the input or with another
branch. -/
theorem simulate_settle_ref_no_mutation (gs : GameState) (x max_window : Nat) :
    readRef (simulate_settle_ref gs x max_window).1 0 = gs
    ∧ (∀ r ∈ allBranchRefs (simulate_settle_ref gs x max_window).2, r ≠ 0)
    ∧ (allBranchRefs (simulate_settle_ref gs x max_window).2).Nodup := by
  rw [simulate_settle_ref]
  by_cases hrem : (SETTLE_ORDER.length : Int) - gs.map.nodes.length ≤ 0
  · rw [if_pos hrem]
    exact ⟨rfl, by intro r hr; simp [allBranchRefs] at hr, by simp [allBranchRefs]⟩
  · rw [if_neg hrem]
    by_cases hopt : (top_settle_spots gs x).isEmpty
    · rw [if_pos hopt]
      exact ⟨rfl, by intro r hr; simp [allBranchRefs] at hr, by simp [allBranchRefs]⟩
    · rw [if_neg hopt]
      obtain ⟨o1, o2, o3, o4, o5⟩ := options_fold_spec gs (rank_all_spots gs)
        (((rank_all_spots gs).take 12).map Prod.fst)
        (slot_actors gs.map.nodes.length ((SETTLE_ORDER.length : Int) - gs.map.nodes.length))
        max_window (top_settle_spots gs x) [gs] []
        (by intro r hr; simp [allBranchRefs] at hr)
        (by simp [allBranchRefs])
      refine ⟨?_, ?_, o5⟩
      · exact (o2 0 (by simp)).trans rfl
      · intro r hr
        rcases o3 r hr with h | h
        · simp [allBranchRefs] at h
        · have h1 : (1 : Nat) ≤ r := by simpa using h
          omega

end Catana
